import Mathlib

/-!
# local-path-provisioner-exporter: one tick of `RecordMetrics`

Shallow embedding of `src/main.go`.

* `DirSize` (lines 154-166) walks a directory tree with `filepath.Walk`; the
  tree is a value of `Node`, the walk is `walkNode` / `walkList`, the closure
  passed to `Walk` is `walkFn`, its captured `int64` accumulator is threaded
  explicitly.
* `NewMetrics` (lines 67-87) registers two gauge vectors in a registry.
* One iteration of the `for` loop of `RecordMetrics` (lines 92-151) is
  `RecordMetricsTick`: the size map loop is `sizeMapLoop`, the body of the
  loop over `pvcList.Items` is `joinStep`, the loop itself is `joinLoop`.
  Every `Set` on a gauge is recorded as a `GaugeWrite`; the metric sink after
  the tick is the prior sink with these writes applied in order.

What the operating system and the libraries return is input: the directory
listing with the tree found under each name, the error of `os.ReadDir`, the
items and the error of the PVC list call, and the function `ParseBytes`
(humanize.ParseBytes, applied to the string form of the requested quantity).
The tick is defined for every such function; `humanizeParseBytes` is the
conversion of the library itself, and `Quantity` is the string form of a
Kubernetes quantity with the number of bytes it denotes.
-/

namespace LocalPathExporter

/-! ## Filesystem and `DirSize` -/

/-- An error value; only its presence and its message matter. -/
abbrev Err := String

/-- The two fields of `os.FileInfo` that `DirSize` reads. -/
structure FileInfo where
  IsDir : Bool
  Size : Nat
deriving DecidableEq, Repr

/-- What `filepath.Walk` can meet at a path.
`file size`: `Lstat` succeeds, not a directory (regular file, symlink, special
file), `Size()` is `size`.
`dir size children`: `Lstat` succeeds, a directory whose own `Size()` is `size`
and whose names can be read; `children` are in the order `Walk` visits them.
`unreadableDir size e`: a directory whose names cannot be read (error `e`).
`noStat e`: `Lstat` on the path fails with `e`. -/
inductive Node where
  | file (size : Nat)
  | dir (size : Nat) (children : List (String × Node))
  | unreadableDir (size : Nat) (e : Err)
  | noStat (e : Err)

/-- Two-complement wrap-around of a Go `int64`. -/
def wrapInt64 (x : Int) : Int := (x + 2 ^ 63) % 2 ^ 64 - 2 ^ 63

/-- The closure of `DirSize` (lines 156-164), with the captured accumulator
`size` passed in and returned:
`if err != nil { return err }; if !info.IsDir() { size += info.Size() }; return err`. -/
def walkFn (size : Int) (info : Option FileInfo) (err : Option Err) : Int × Option Err :=
  match err, info with
  | some e, _ => (size, some e)
  | none, some i => if !i.IsDir then (wrapInt64 (size + (i.Size : Int)), none) else (size, none)
  | none, none => (size, none)

mutual
/-- One path of `filepath.Walk` with the closure of `DirSize`: `Lstat`, then
`walk`. A failed `Lstat` hands the error to the closure, which returns it. A
non-directory is handed to the closure. For a directory the names are read and
the closure is called with the directory and the read error; on an error the
walk returns it, otherwise the children are walked in order. The closure only
returns errors it was handed, so the `SkipDir` / `SkipAll` branches of `Walk`
are never taken. -/
def walkNode : Node → Int → Int × Option Err
  | .noStat e, size => walkFn size none (some e)
  | .file sz, size => walkFn size (some ⟨false, sz⟩) none
  | .unreadableDir dsz e, size => walkFn size (some ⟨true, dsz⟩) (some e)
  | .dir dsz cs, size =>
      match walkFn size (some ⟨true, dsz⟩) none with
      | (size1, some e1) => (size1, some e1)
      | (size1, none) => walkList cs size1
/-- The loop over the names of a directory inside `walk`: the first error
stops the walk and is returned. -/
def walkList : List (String × Node) → Int → Int × Option Err
  | [], size => (size, none)
  | (_, n) :: rest, size =>
      match walkNode n size with
      | (size1, some e) => (size1, some e)
      | (size1, none) => walkList rest size1
end

/-- `DirSize` (lines 154-166): `var size int64`, walk, `return uint64(size), err`. -/
def DirSize (n : Node) : Nat × Option Err :=
  let r := walkNode n 0
  ((r.1 % 2 ^ 64).toNat, r.2)

mutual
/-- Sum of the sizes of all non-directory entries of a tree (the node itself
when it is a non-directory); directories contribute nothing. -/
def Node.fileBytes : Node → Nat
  | .file sz => sz
  | .dir _ cs => listFileBytes cs
  | .unreadableDir _ _ => 0
  | .noStat _ => 0
/-- Sum of `Node.fileBytes` over the children of a directory. -/
def listFileBytes : List (String × Node) → Nat
  | [] => 0
  | (_, n) :: rest => n.fileBytes + listFileBytes rest
end

mutual
/-- Every entry of the tree is accessible: every `Lstat` succeeds and every
directory can be read. -/
def Node.accessible : Node → Bool
  | .file _ => true
  | .dir _ cs => listAccessible cs
  | .unreadableDir _ _ => false
  | .noStat _ => false
/-- Every child of a directory is accessible. -/
def listAccessible : List (String × Node) → Bool
  | [] => true
  | (_, n) :: rest => n.accessible && listAccessible rest
end

/-! ## Gauges -/

/-- Shift that brings an unsigned 64-bit value down to 53 significant bits:
the number of bits of `n` above 53 (`float64Shift 12 n` for `n < 2 ^ 65`). -/
def float64Shift : Nat → Nat → Nat
  | 0, _ => 0
  | k + 1, n => if 2 ^ (53 + k) ≤ n then k + 1 else float64Shift k n

/-- Go conversion `float64(n)` of an unsigned 64-bit `n`, as the number the
resulting float denotes: `n` rounded to 53 significant bits, ties to even. -/
def float64 (n : Nat) : Nat :=
  let e := float64Shift 12 n
  let q := n / 2 ^ e
  let r := n % 2 ^ e
  if 2 ^ e < 2 * r ∨ (2 * r = 2 ^ e ∧ q % 2 = 1) then (q + 1) * 2 ^ e else q * 2 ^ e

/-- The values of the four labels of a gauge child, in the order the gauge
vectors declare them. -/
structure Labels where
  pvcname : String
  namespace_ : String
  storageclass : String
  pvname : String
deriving DecidableEq, Repr

/-- The two gauge vectors of `Metrics`. -/
inductive Family where
  | pvcRequestedBytes
  | pvcUsedBytes
deriving DecidableEq, Repr

/-- One call `metrics.<family>.With(labels).Set(value)`. -/
structure GaugeWrite where
  family : Family
  labels : Labels
  value : Nat
deriving DecidableEq, Repr

/-- A gauge vector: the value of each child that exists. -/
abbrev GaugeVec := Labels → Option Nat

/-- The sink: the two gauge vectors of `Metrics` (lines 31-34). -/
structure Metrics where
  pvcRequestedBytes : GaugeVec
  pvcUsedBytes : GaugeVec

/-- `With(labels).Set(v)`: the child for `labels` is created when missing and
its value becomes `v`. -/
def GaugeVec.set (g : GaugeVec) (l : Labels) (v : Nat) : GaugeVec :=
  fun k => if k = l then some v else g k

/-- The vector of a family. -/
def Metrics.vec (m : Metrics) : Family → GaugeVec
  | .pvcRequestedBytes => m.pvcRequestedBytes
  | .pvcUsedBytes => m.pvcUsedBytes

/-- One gauge write applied to the sink. -/
def Metrics.write (m : Metrics) (w : GaugeWrite) : Metrics :=
  match w.family with
  | .pvcRequestedBytes => { m with pvcRequestedBytes := m.pvcRequestedBytes.set w.labels w.value }
  | .pvcUsedBytes => { m with pvcUsedBytes := m.pvcUsedBytes.set w.labels w.value }

/-- Gauge writes applied to the sink in order. -/
def Metrics.writeAll (m : Metrics) (ws : List GaugeWrite) : Metrics :=
  ws.foldl Metrics.write m

/-- The sink seen as a map from label set to (requested, used). -/
def Metrics.view (m : Metrics) (l : Labels) : Option Nat × Option Nat :=
  (m.pvcRequestedBytes l, m.pvcUsedBytes l)

/-! ## `NewMetrics` -/

/-- What a registry keeps of a registered gauge vector. -/
structure GaugeDesc where
  Name : String
  Help : String
  labelNames : List String
deriving DecidableEq, Repr

/-- A registry: the registered gauge vectors, in registration order. -/
abbrev Registry := List GaugeDesc

/-- `reg.MustRegister(c)`: panics (`none`) when a collector of the same name
is registered already, otherwise appends it. -/
def MustRegister (reg : Registry) (c : GaugeDesc) : Option Registry :=
  if reg.any (fun d => d.Name == c.Name) then none else some (reg ++ [c])

/-- `NewMetrics` (lines 67-87): the two gauge vectors are built and
registered, requested first. -/
def NewMetrics (reg : Registry) : Option Registry :=
  let pvcRequestedBytes : GaugeDesc :=
    { Name := "pvc_requested_bytes", Help := "The number of bytes requested by pvc",
      labelNames := ["pvcname", "namespace", "storageclass", "pvname"] }
  let pvcUsedBytes : GaugeDesc :=
    { Name := "pvc_used_bytes", Help := "The number of bytes used by pvc",
      labelNames := ["pvcname", "namespace", "storageclass", "pvname"] }
  match MustRegister reg pvcRequestedBytes with
  | none => none
  | some reg1 => MustRegister reg1 pvcUsedBytes

/-! ## One tick of `RecordMetrics` -/

/-- `Config` (lines 24-29). -/
structure Config where
  DefaultPath : String
  DelaySeconds : Int
  StorageClass : String
  NodeName : String
deriving DecidableEq, Repr

/-- The fields of a PersistentVolumeClaim the loop reads.
`StorageClassName` is `*string` in the source: `none` is the nil pointer.
`StorageRequest` is `pvc.Spec.Resources.Requests.Storage().String()`. -/
structure PVC where
  Name : String
  Namespace : String
  StorageClassName : Option String
  VolumeName : String
  StorageRequest : String
deriving DecidableEq, Repr

/-- The size map of a tick, `map[string]uint64`. -/
abbrev SizeMap := String → Option Nat

/-- Assignment `sizeMap[k] = v`. -/
def SizeMap.set (m : SizeMap) (k : String) (v : Nat) : SizeMap :=
  fun j => if j = k then some v else m j

/-- The join key of line 121: `fmt.Sprintf("%s_%s_%s", volumeName, namespace, name)`. -/
def key (volumeName ns name : String) : String :=
  volumeName ++ "_" ++ ns ++ "_" ++ name

/-- The loop of lines 102-108 over the directory entries, from the map and the
log built so far: `DirSize` on the entry, an error is logged, and the size is
stored under the entry name in either case. -/
def sizeMapLoop : List (String × Node) → SizeMap × List Err → SizeMap × List Err
  | [], acc => acc
  | (name, node) :: rest, (sizeMap, logs) =>
      let (size, err) := DirSize node
      let logs1 := match err with
        | some e => logs ++ [e]
        | none => logs
      sizeMapLoop rest (sizeMap.set name size, logs1)

/-- Labels written for a PVC that passed the class test (lines 130-135). -/
def labelsOf (pvc : PVC) (storageClassName : String) : Labels :=
  { pvcname := pvc.Name, namespace_ := pvc.Namespace,
    storageclass := storageClassName, pvname := pvc.VolumeName }

/-- Body of the loop over `pvcList.Items` (lines 118-146) for one PVC: the
gauge writes and the log lines it produces, or `none` when dereferencing the
nil `StorageClassName` panics at line 118. -/
def joinStep (config : Config) (ParseBytes : String → Nat × Option Err) (sizeMap : SizeMap)
    (pvc : PVC) : Option (List GaugeWrite × List Err) :=
  match pvc.StorageClassName with
  | none => none
  | some storageClassName =>
      if storageClassName ≠ config.StorageClass then some ([], [])
      else
        match sizeMap (key pvc.VolumeName pvc.Namespace pvc.Name) with
        | none => some ([], [])
        | some sizeUsedBytes =>
            let (sizeRequestedBytes, err) := ParseBytes pvc.StorageRequest
            let logs := match err with
              | some e => [e]
              | none => []
            some ([⟨.pvcRequestedBytes, labelsOf pvc storageClassName, float64 sizeRequestedBytes⟩,
                   ⟨.pvcUsedBytes, labelsOf pvc storageClassName, float64 sizeUsedBytes⟩], logs)

/-- How a tick ends: it reaches `time.Sleep` (line 150), or the goroutine
panics on a nil pointer dereference. -/
inductive Outcome where
  | sleeping
  | nilPointerPanic
deriving DecidableEq, Repr

/-- What a tick does: its gauge writes in order, its log lines in order, and
how it ends. -/
structure TickResult where
  writes : List GaugeWrite
  logs : List Err
  outcome : Outcome
deriving DecidableEq, Repr

/-- The loop of lines 117-147 over `pvcList.Items`. -/
def joinLoop (config : Config) (ParseBytes : String → Nat × Option Err) (sizeMap : SizeMap) :
    List PVC → TickResult
  | [] => ⟨[], [], .sleeping⟩
  | pvc :: rest =>
      match joinStep config ParseBytes sizeMap pvc with
      | none => ⟨[], [], .nilPointerPanic⟩
      | some (ws, ls) =>
          let r := joinLoop config ParseBytes sizeMap rest
          ⟨ws ++ r.writes, ls ++ r.logs, r.outcome⟩

/-- What the outside world hands to one tick: the result of
`os.ReadDir(config.DefaultPath)` (each entry name with the tree found at
`path.Join(config.DefaultPath, name)`, and the error), and the result of the
PVC list call (`pvcList.Items` and the error). -/
structure TickInput where
  entries : List (String × Node)
  readDirErr : Option Err
  pvcItems : List PVC
  listErr : Option Err

/-- The log line of `if err != nil { log.Error(err) }`. -/
def logErr : Option Err → List Err
  | some e => [e]
  | none => []

/-- One iteration of the `for` loop of `RecordMetrics` (lines 93-150). -/
def RecordMetricsTick (config : Config) (ParseBytes : String → Nat × Option Err)
    (inp : TickInput) : TickResult :=
  let logs0 := logErr inp.readDirErr
  let (sizeMap, logs1) := sizeMapLoop inp.entries (fun _ => none, logs0)
  let logs2 := logs1 ++ logErr inp.listErr
  let r := joinLoop config ParseBytes sizeMap inp.pvcItems
  ⟨r.writes, logs2 ++ r.logs, r.outcome⟩

/-- The size map a tick builds from its directory entries. -/
def tickSizeMap (inp : TickInput) : SizeMap :=
  (sizeMapLoop inp.entries (fun _ => none, logErr inp.readDirErr)).1

/-- The sink after a tick: the writes of the tick applied to the prior sink. -/
def sinkAfterTick (config : Config) (ParseBytes : String → Nat × Option Err)
    (inp : TickInput) (sink : Metrics) : Metrics :=
  sink.writeAll (RecordMetricsTick config ParseBytes inp).writes

/-- The value a gauge child holds after the writes `ws` when one of them
addressed it: the value of the last write to family `f` with labels `l`. -/
def lastWrite (ws : List GaugeWrite) (f : Family) (l : Labels) : Option Nat :=
  ((ws.filter (fun w => decide (w.family = f ∧ w.labels = l))).getLast?).map (fun w => w.value)

/-! ## The conversion `humanize.ParseBytes` and serialized quantities -/

/-- Nearest integer to `n / d`, ties to even. -/
def roundDiv (n d : Nat) : Nat :=
  let q := n / d
  let r := n % d
  if d < 2 * r ∨ (2 * r = d ∧ q % 2 = 1) then q + 1 else q

/-- Number of halvings that bring `x` below 2 ^ 53 (`fuel` bounds the count). -/
def downShift : Nat → Nat → Nat
  | 0, _ => 0
  | fuel + 1, x => if x < 2 ^ 53 then 0 else downShift fuel (x / 2) + 1

/-- Number of doublings of `n` that bring `n / d` up to 2 ^ 52 (`fuel` bounds
the count). -/
def upShift : Nat → Nat → Nat → Nat
  | 0, _, _ => 0
  | fuel + 1, n, d => if d * 2 ^ 52 ≤ n then 0 else upShift fuel (2 * n) d + 1

/-- A non-negative float64 as the number it denotes, `num / 2 ^ scale`. -/
structure F64 where
  num : Nat
  scale : Nat
deriving DecidableEq, Repr

/-- The float64 nearest to `n / d` (53 significant bits, ties to even). The
exponent range is not modelled here: `parseFloat` tests for overflow, and a
value in the subnormal range is below 1 after the multiplication by a size
unit, so that `ParseBytes` returns 0 for it either way. -/
def roundF64 (n d : Nat) : F64 :=
  if n = 0 then ⟨0, 0⟩
  else if d * 2 ^ 53 ≤ n then
    let e := downShift (n / d) (n / d)
    ⟨roundDiv n (d * 2 ^ e) * 2 ^ e, 0⟩
  else
    let s := upShift (d + 53) n d
    ⟨roundDiv (n * 2 ^ s) d, s⟩

/-- The number a string of decimal digits denotes. -/
def digitsValue (ds : List Char) : Nat :=
  ds.foldl (fun acc c => 10 * acc + (c.toNat - 48)) 0

/-- The runes `ParseBytes` takes for the number: a digit, a dot or a comma. -/
def isNumberRune (c : Char) : Bool :=
  c.isDigit || c == '.' || c == ','

/-- ASCII white space, as `strings.TrimSpace` removes it. -/
def isSpace (c : Char) : Bool :=
  c == ' ' || (9 ≤ c.toNat && c.toNat ≤ 13)

/-- `strings.TrimSpace` on ASCII text. -/
def trimSpace (cs : List Char) : List Char :=
  ((cs.dropWhile isSpace).reverse.dropWhile isSpace).reverse

/-- `strconv.ParseFloat(num, 64)` on text made of digits and dots: a syntax
error unless there is at least one digit and at most one dot, a range error
when the nearest float64 is infinite, otherwise the nearest float64. -/
def parseFloat (num : List Char) : Except Err F64 :=
  let intDigits := num.takeWhile (fun c => c != '.')
  let fracDigits := (num.dropWhile (fun c => c != '.')).drop 1
  if !(intDigits ++ fracDigits).all Char.isDigit || (intDigits ++ fracDigits).isEmpty then
    .error ("strconv.ParseFloat: parsing \"" ++ String.mk num ++ "\": invalid syntax")
  else
    let f := roundF64 (digitsValue (intDigits ++ fracDigits)) (10 ^ fracDigits.length)
    if (2 ^ 256) ^ 4 * 2 ^ f.scale ≤ f.num then
      .error ("strconv.ParseFloat: parsing \"" ++ String.mk num ++ "\": value out of range")
    else .ok f

/-- The table `bytesSizeTable` of humanize: size name to bytes. -/
def bytesSizeTable : List (String × Nat) :=
  [("b", 1), ("kib", 2 ^ 10), ("kb", 10 ^ 3), ("mib", 2 ^ 20), ("mb", 10 ^ 6),
   ("gib", 2 ^ 30), ("gb", 10 ^ 9), ("tib", 2 ^ 40), ("tb", 10 ^ 12),
   ("pib", 2 ^ 50), ("pb", 10 ^ 15), ("eib", 2 ^ 60), ("eb", 10 ^ 18),
   ("", 1), ("ki", 2 ^ 10), ("k", 10 ^ 3), ("mi", 2 ^ 20), ("m", 10 ^ 6),
   ("gi", 2 ^ 30), ("g", 10 ^ 9), ("ti", 2 ^ 40), ("t", 10 ^ 12),
   ("pi", 2 ^ 50), ("p", 10 ^ 15), ("ei", 2 ^ 60), ("e", 10 ^ 18)]

/-- The conversion `humanize.ParseBytes` on ASCII text (the string form of a
quantity is ASCII). The leading digits, dots and commas are the number, the
commas are dropped, the number is parsed as a float64; the rest, trimmed and
in lower case, is looked up in `bytesSizeTable`; the float64 product is
returned as `uint64` unless it reaches 2 ^ 64. Every error returns 0. -/
def humanizeParseBytes (s : String) : Nat × Option Err :=
  let num := (s.data.takeWhile isNumberRune).filter (fun c => c != ',')
  match parseFloat num with
  | .error e => (0, some e)
  | .ok f =>
      let extra := String.mk ((trimSpace (s.data.dropWhile isNumberRune)).map Char.toLower)
      match bytesSizeTable.lookup extra with
      | some m =>
          let p := roundF64 (f.num * m) (2 ^ f.scale)
          if 2 ^ 64 * 2 ^ p.scale ≤ p.num then (0, some ("too large: " ++ s))
          else (p.num / 2 ^ p.scale, none)
      | none => (0, some ("unhandled size name: " ++ extra))

/-- The suffix of a serialized Kubernetes quantity: a decimal SI suffix
(n, u, m, none, k, M, G, T, P, E), a binary SI suffix (Ki, Mi, Gi, Ti, Pi,
Ei) or a decimal exponent (e followed by an integer). -/
inductive Suffix where
  | nano | micro | milli | unit | kilo | mega | giga | tera | peta | exa
  | kibi | mebi | gibi | tebi | pebi | exbi
  | exponent (e : Int)
deriving DecidableEq, Repr

/-- The text of a suffix. -/
def Suffix.text : Suffix → String
  | .nano => "n" | .micro => "u" | .milli => "m" | .unit => ""
  | .kilo => "k" | .mega => "M" | .giga => "G" | .tera => "T" | .peta => "P" | .exa => "E"
  | .kibi => "Ki" | .mebi => "Mi" | .gibi => "Gi" | .tebi => "Ti" | .pebi => "Pi"
  | .exbi => "Ei"
  | .exponent e => "e" ++ toString e

/-- The factor a suffix stands for, as numerator and denominator. -/
def Suffix.multiplier : Suffix → Nat × Nat
  | .nano => (1, 10 ^ 9) | .micro => (1, 10 ^ 6) | .milli => (1, 10 ^ 3) | .unit => (1, 1)
  | .kilo => (10 ^ 3, 1) | .mega => (10 ^ 6, 1) | .giga => (10 ^ 9, 1) | .tera => (10 ^ 12, 1)
  | .peta => (10 ^ 15, 1) | .exa => (10 ^ 18, 1)
  | .kibi => (2 ^ 10, 1) | .mebi => (2 ^ 20, 1) | .gibi => (2 ^ 30, 1) | .tebi => (2 ^ 40, 1)
  | .pebi => (2 ^ 50, 1) | .exbi => (2 ^ 60, 1)
  | .exponent e => if 0 ≤ e then (10 ^ e.toNat, 1) else (1, 10 ^ (-e).toNat)

/-- The suffixes `humanize.ParseBytes` reads with the factor they have in a
quantity: none, k, M, G, T, P, E, Ki, Mi, Gi, Ti, Pi, Ei. -/
def sharedSuffixes : List Suffix :=
  [.unit, .kilo, .mega, .giga, .tera, .peta, .exa, .kibi, .mebi, .gibi, .tebi, .pebi, .exbi]

/-- A serialized quantity as `Quantity.String()` prints it, without sign: the
decimal digits of the mantissa and the suffix (the canonical form has no
fractional digits). -/
structure Quantity where
  digits : List Char
  suffix : Suffix
deriving DecidableEq, Repr

/-- The mantissa has at least one digit and nothing but digits. -/
def Quantity.wellFormed (q : Quantity) : Bool :=
  !q.digits.isEmpty && q.digits.all Char.isDigit

/-- The number of bytes a quantity denotes, as numerator and denominator. -/
def Quantity.value (q : Quantity) : Nat × Nat :=
  (digitsValue q.digits * q.suffix.multiplier.1, q.suffix.multiplier.2)

/-- The string form of a quantity. -/
def Quantity.String (q : Quantity) : String :=
  String.mk q.digits ++ q.suffix.text

/-! ## Data of the closed examples -/

/-- A conversion for the closed examples. It answers the quantity strings
used there the way humanize.ParseBytes does: "2Gi" is 2 * 2 ^ 30 bytes; in
"1e3" the text after the digits, "e3", is no size name, which gives 0 and an
error. -/
def exampleParseBytes (s : String) : Nat × Option Err :=
  if s = "2Gi" then (2147483648, none)
  else if s = "1e3" then (0, some "unhandled size name: e3")
  else (0, some "unhandled size name")

/-- A configuration with the default storage class. -/
def exampleConfig : Config :=
  { DefaultPath := "/opt/local-path-provisioner", DelaySeconds := 30,
    StorageClass := "local-path", NodeName := "node1" }

/-- The claim of the scenario: pvc1 in ns1 on vol1, class local-path, 2Gi. -/
def pvc1 : PVC :=
  { Name := "pvc1", Namespace := "ns1", StorageClassName := some "local-path",
    VolumeName := "vol1", StorageRequest := "2Gi" }

/-- The same claim with another storage class. -/
def pvcOtherClass : PVC :=
  { Name := "pvc1", Namespace := "ns1", StorageClassName := some "other-class",
    VolumeName := "vol1", StorageRequest := "2Gi" }

/-- A claim of the target class with no directory under the root. -/
def pvcNoDir : PVC :=
  { Name := "pvc3", Namespace := "ns1", StorageClassName := some "local-path",
    VolumeName := "vol3", StorageRequest := "2Gi" }

/-- A claim of the target class whose quantity string does not convert. -/
def pvcBadQuantity : PVC :=
  { Name := "pvc2", Namespace := "ns1", StorageClassName := some "local-path",
    VolumeName := "vol2", StorageRequest := "1e3" }

/-- A claim without a storage class (nil pointer). -/
def pvcNilClass : PVC :=
  { Name := "pvc0", Namespace := "ns1", StorageClassName := none,
    VolumeName := "vol0", StorageRequest := "2Gi" }

/-- Root listing of the scenario: the directory of pvc1 with 1,000,000 bytes,
the directory of pvc2 with 500 bytes, and a directory no claim points to. -/
def exampleEntries : List (String × Node) :=
  [("vol1_ns1_pvc1", .dir 4096 [("data", .file 1000000)]),
   ("vol2_ns1_pvc2", .dir 4096 [("a", .file 200), ("b", .dir 4096 [("c", .file 300)])]),
   ("vol7_ns7_gone", .dir 4096 [("left", .file 42)])]

/-- A tick input over `exampleEntries` with the given claims and no error. -/
def exampleInput (pvcs : List PVC) : TickInput :=
  { entries := exampleEntries, readDirErr := none, pvcItems := pvcs, listErr := none }

/-- Labels of pvc1. -/
def labels1 : Labels :=
  { pvcname := "pvc1", namespace_ := "ns1", storageclass := "local-path", pvname := "vol1" }

/-- Labels of pvc2. -/
def labels2 : Labels :=
  { pvcname := "pvc2", namespace_ := "ns1", storageclass := "local-path", pvname := "vol2" }

/-- A sink with no gauge child. -/
def emptySink : Metrics :=
  { pvcRequestedBytes := fun _ => none, pvcUsedBytes := fun _ => none }

/-- A sink left by earlier ticks: pvc1 and a claim that is gone since. -/
def staleSink : Metrics :=
  (emptySink.writeAll
    [⟨.pvcRequestedBytes, labels1, 1073741824⟩, ⟨.pvcUsedBytes, labels1, 777⟩,
     ⟨.pvcRequestedBytes, ⟨"old", "ns1", "local-path", "vol8"⟩, 1073741824⟩,
     ⟨.pvcUsedBytes, ⟨"old", "ns1", "local-path", "vol8"⟩, 5⟩])

/-- A root listing that stopped with an error after its first entry. -/
def brokenListingInput : TickInput :=
  { entries := [("vol1_ns1_pvc1", .dir 4096 [("data", .file 1000000)])],
    readDirErr := some "readdirent /opt/local-path-provisioner: input/output error",
    pvcItems := [pvc1], listErr := none }

/-- A volume directory with a subdirectory that cannot be read: the walk adds
the file before it and stops there. -/
def lockedVolume : Node :=
  .dir 4096 [("a", .file 200), ("locked", .unreadableDir 4096 "open locked: permission denied"),
    ("z", .file 300)]

/-- A root listing whose only child fails its size probe. -/
def lockedInput : TickInput :=
  { entries := [("vol2_ns1_pvc2", lockedVolume)], readDirErr := none,
    pvcItems := [pvcBadQuantity], listErr := none }

/-- A directory of three sparse files of the largest size an `int64` holds. -/
def hugeVolume : Node :=
  .dir 4096 [("a", .file 9223372036854775807), ("b", .file 9223372036854775807),
    ("c", .file 9223372036854775807)]

/-- A size map with one directory of 2 ^ 53 + 1 bytes for pvc1. -/
def bigSizeMap : SizeMap :=
  SizeMap.set (fun _ => none) "vol1_ns1_pvc1" 9007199254740993

/-! ## Lemmas: the walk -/

theorem wrapInt64_emod (x : Int) : wrapInt64 x % 2 ^ 64 = x % 2 ^ 64 := by
  unfold wrapInt64
  norm_num
  omega

mutual
theorem walkNode_accessible : ∀ (n : Node) (size : Int), n.accessible = true →
    (walkNode n size).2 = none ∧
      (walkNode n size).1 % 2 ^ 64 = (size + (n.fileBytes : Int)) % 2 ^ 64
  | .file sz, size, _ => by
      have hw := wrapInt64_emod (size + (sz : Int))
      simpa [walkNode, walkFn, Node.fileBytes] using hw
  | .dir dsz cs, size, h => by
      have ih := walkList_accessible cs size (by simpa [Node.accessible] using h)
      simpa [walkNode, walkFn, Node.fileBytes] using ih
  | .unreadableDir _ _, _, h => by simp [Node.accessible] at h
  | .noStat _, _, h => by simp [Node.accessible] at h
theorem walkList_accessible : ∀ (cs : List (String × Node)) (size : Int),
    listAccessible cs = true →
    (walkList cs size).2 = none ∧
      (walkList cs size).1 % 2 ^ 64 = (size + (listFileBytes cs : Int)) % 2 ^ 64
  | [], size, _ => by simp [walkList, listFileBytes]
  | (name, n) :: rest, size, h => by
      have h2 : n.accessible = true ∧ listAccessible rest = true := by
        simpa [listAccessible] using h
      have ih1 := walkNode_accessible n size h2.1
      have ih2 := walkList_accessible rest (walkNode n size).1 h2.2
      rcases hw : walkNode n size with ⟨s1, e1⟩
      rw [hw] at ih1 ih2
      simp only at ih1 ih2
      obtain ⟨he, hs⟩ := ih1
      subst he
      simp only [walkList, hw, listFileBytes]
      refine ⟨ih2.1, ?_⟩
      rw [ih2.2]
      push_cast
      omega
end

theorem DirSize_of_accessible (n : Node) (h : n.accessible = true) :
    DirSize n = (n.fileBytes % 2 ^ 64, none) := by
  have hw := walkNode_accessible n 0 h
  unfold DirSize
  ext
  · simp only
    rw [hw.2]
    simp
    omega
  · simp [hw.1]

/-! ## Lemmas: float conversion and the size map -/

theorem float64Shift_eq_zero (n : Nat) (h : n < 2 ^ 53) : ∀ k, float64Shift k n = 0
  | 0 => rfl
  | k + 1 => by
      have hle : 2 ^ 53 ≤ 2 ^ (53 + k) := Nat.pow_le_pow_right (by decide) (by omega)
      have : ¬ 2 ^ (53 + k) ≤ n := by omega
      simp [float64Shift, this, float64Shift_eq_zero n h k]

theorem float64_exact (n : Nat) (h : n ≤ 2 ^ 53) : float64 n = n := by
  rcases Nat.lt_or_ge n (2 ^ 53) with hlt | hge
  · simp [float64, float64Shift_eq_zero n hlt 12]
    omega
  · have : n = 2 ^ 53 := le_antisymm h hge
    subst this
    decide

theorem sizeMapLoop_fst_logs (es : List (String × Node)) :
    ∀ (m : SizeMap) (l l' : List Err), (sizeMapLoop es (m, l)).1 = (sizeMapLoop es (m, l')).1 := by
  induction es with
  | nil => intro m l l'; rfl
  | cons e rest ih =>
      intro m l l'
      obtain ⟨name, node⟩ := e
      simp only [sizeMapLoop]
      exact ih _ _ _

theorem sizeMapLoop_not_mem (es : List (String × Node)) :
    ∀ (m : SizeMap) (l : List Err) (name : String), name ∉ es.map Prod.fst →
      (sizeMapLoop es (m, l)).1 name = m name := by
  induction es with
  | nil => intro m l name _; rfl
  | cons e rest ih =>
      intro m l name hn
      obtain ⟨n0, node⟩ := e
      simp only [List.map_cons, List.mem_cons, not_or] at hn
      simp only [sizeMapLoop]
      rw [ih _ _ _ hn.2]
      simp [SizeMap.set, hn.1]

theorem sizeMapLoop_mem (es : List (String × Node)) :
    ∀ (m : SizeMap) (l : List Err), (es.map Prod.fst).Nodup →
      ∀ e ∈ es, (sizeMapLoop es (m, l)).1 e.1 = some (DirSize e.2).1 := by
  induction es with
  | nil => intro m l _ e he; simp at he
  | cons e0 rest ih =>
      intro m l hnd e he
      obtain ⟨n0, node⟩ := e0
      simp only [List.map_cons, List.nodup_cons] at hnd
      simp only [sizeMapLoop]
      rcases List.mem_cons.mp he with rfl | hr
      · rw [sizeMapLoop_not_mem rest _ _ _ hnd.1]
        simp [SizeMap.set]
      · exact ih _ _ hnd.2 e hr

theorem sizeMapLoop_isSome (es : List (String × Node)) :
    ∀ (m : SizeMap) (l : List Err) (name : String),
      ((sizeMapLoop es (m, l)).1 name).isSome = true ↔
        (name ∈ es.map Prod.fst ∨ (m name).isSome = true) := by
  induction es with
  | nil => intro m l name; simp [sizeMapLoop]
  | cons e0 rest ih =>
      intro m l name
      obtain ⟨n0, node⟩ := e0
      simp only [sizeMapLoop, List.map_cons, List.mem_cons]
      rw [ih]
      by_cases h : name = n0
      · simp [SizeMap.set, h]
      · simp [SizeMap.set, h]

/-! ## Lemmas: the join key and the join loop -/

theorem append_cons_inj_of_not_mem {c : Char} :
    ∀ (a a' b b' : List Char), c ∉ a → c ∉ a' → a ++ c :: b = a' ++ c :: b' → a = a' ∧ b = b'
  | [], [], b, b', _, _, h => by simpa using h
  | [], y :: a', b, b', _, h2, h => by
      simp only [List.nil_append, List.cons_append, List.cons.injEq] at h
      exact absurd (by simp [h.1]) h2
  | x :: a, [], b, b', h1, _, h => by
      simp only [List.nil_append, List.cons_append, List.cons.injEq] at h
      exact absurd (by simp [h.1]) h1
  | x :: a, y :: a', b, b', h1, h2, h => by
      simp only [List.cons_append, List.cons.injEq] at h
      have h1' : c ∉ a := fun hc => h1 (List.mem_cons_of_mem _ hc)
      have h2' : c ∉ a' := fun hc => h2 (List.mem_cons_of_mem _ hc)
      obtain ⟨r1, r2⟩ := append_cons_inj_of_not_mem a a' b b' h1' h2' h.2
      exact ⟨by rw [h.1, r1], r2⟩

theorem key_data (v n p : String) :
    (key v n p).data = v.data ++ '_' :: (n.data ++ '_' :: p.data) := by
  simp [key, String.data_append]

theorem joinStep_writes (config : Config) (ParseBytes : String → Nat × Option Err)
    (sizeMap : SizeMap) (pvc : PVC) (ws : List GaugeWrite) (ls : List Err)
    (h : joinStep config ParseBytes sizeMap pvc = some (ws, ls)) :
    ∀ w ∈ ws, pvc.StorageClassName = some config.StorageClass ∧
      (sizeMap (key pvc.VolumeName pvc.Namespace pvc.Name)).isSome = true ∧
      w.labels = ⟨pvc.Name, pvc.Namespace, config.StorageClass, pvc.VolumeName⟩ := by
  intro w hw
  unfold joinStep at h
  cases hc : pvc.StorageClassName with
  | none => simp [hc] at h
  | some sc =>
      simp only [hc] at h
      by_cases hsc : sc = config.StorageClass
      · subst hsc
        cases hk : sizeMap (key pvc.VolumeName pvc.Namespace pvc.Name) with
        | none =>
            simp [hk] at h
            obtain ⟨rfl, _⟩ := h
            simp at hw
        | some used =>
            simp [hk] at h
            obtain ⟨rfl, _⟩ := h
            simp only [List.mem_cons, List.mem_singleton, List.not_mem_nil, or_false] at hw
            rcases hw with rfl | rfl <;> simp [labelsOf]
      · simp [hsc] at h
        obtain ⟨rfl, _⟩ := h
        simp at hw

theorem joinLoop_mem_writes (config : Config) (ParseBytes : String → Nat × Option Err)
    (sizeMap : SizeMap) :
    ∀ (pvcs : List PVC) (w : GaugeWrite), w ∈ (joinLoop config ParseBytes sizeMap pvcs).writes →
      ∃ p ∈ pvcs, ∃ ws ls, joinStep config ParseBytes sizeMap p = some (ws, ls) ∧ w ∈ ws
  | [], w, h => by simp [joinLoop] at h
  | p :: rest, w, h => by
      unfold joinLoop at h
      cases hs : joinStep config ParseBytes sizeMap p with
      | none => simp [hs] at h
      | some r =>
          obtain ⟨ws, ls⟩ := r
          simp only [hs, List.mem_append] at h
          rcases h with h | h
          · exact ⟨p, List.mem_cons_self _ _, ws, ls, hs, h⟩
          · obtain ⟨q, hq, r⟩ := joinLoop_mem_writes config ParseBytes sizeMap rest w h
            exact ⟨q, List.mem_cons_of_mem _ hq, r⟩

theorem joinLoop_outcome (config : Config) (ParseBytes : String → Nat × Option Err)
    (sizeMap : SizeMap) :
    ∀ (pvcs : List PVC), (∀ p ∈ pvcs, p.StorageClassName ≠ none) →
      (joinLoop config ParseBytes sizeMap pvcs).outcome = .sleeping
  | [], _ => rfl
  | p :: rest, h => by
      unfold joinLoop
      cases hs : joinStep config ParseBytes sizeMap p with
      | none =>
          exfalso
          have := h p (List.mem_cons_self _ _)
          unfold joinStep at hs
          cases hc : p.StorageClassName with
          | none => exact this hc
          | some sc =>
              simp only [hc] at hs
              split at hs
              · simp at hs
              · split at hs <;> simp at hs
      | some r =>
          simp only
          exact joinLoop_outcome config ParseBytes sizeMap rest
            (fun q hq => h q (List.mem_cons_of_mem _ hq))

theorem joinLoop_cons_some (config : Config) (ParseBytes : String → Nat × Option Err)
    (sizeMap : SizeMap) (p : PVC) (rest : List PVC) (ws : List GaugeWrite) (ls : List Err)
    (h : joinStep config ParseBytes sizeMap p = some (ws, ls)) :
    joinLoop config ParseBytes sizeMap (p :: rest) =
      ⟨ws ++ (joinLoop config ParseBytes sizeMap rest).writes,
        ls ++ (joinLoop config ParseBytes sizeMap rest).logs,
        (joinLoop config ParseBytes sizeMap rest).outcome⟩ := by
  rw [joinLoop, h]

theorem joinLoop_cons_none (config : Config) (ParseBytes : String → Nat × Option Err)
    (sizeMap : SizeMap) (p : PVC) (rest : List PVC)
    (h : joinStep config ParseBytes sizeMap p = none) :
    joinLoop config ParseBytes sizeMap (p :: rest) = ⟨[], [], .nilPointerPanic⟩ := by
  rw [joinLoop, h]

theorem joinLoop_append (config : Config) (ParseBytes : String → Nat × Option Err)
    (sizeMap : SizeMap) (post : List PVC) :
    ∀ (pre : List PVC), (joinLoop config ParseBytes sizeMap pre).outcome = .sleeping →
      joinLoop config ParseBytes sizeMap (pre ++ post) =
        ⟨(joinLoop config ParseBytes sizeMap pre).writes ++
            (joinLoop config ParseBytes sizeMap post).writes,
          (joinLoop config ParseBytes sizeMap pre).logs ++
            (joinLoop config ParseBytes sizeMap post).logs,
          (joinLoop config ParseBytes sizeMap post).outcome⟩
  | [], _ => by simp [joinLoop]
  | p :: rest, h => by
      cases hs : joinStep config ParseBytes sizeMap p with
      | none =>
          rw [joinLoop_cons_none config ParseBytes sizeMap p rest hs] at h
          simp at h
      | some r =>
          obtain ⟨ws, ls⟩ := r
          rw [joinLoop_cons_some config ParseBytes sizeMap p rest ws ls hs] at h
          simp only at h
          rw [List.cons_append, joinLoop_cons_some config ParseBytes sizeMap p (rest ++ post) ws ls hs,
            joinLoop_cons_some config ParseBytes sizeMap p rest ws ls hs,
            joinLoop_append config ParseBytes sizeMap post rest h]
          simp

theorem joinLoop_skip (config : Config) (ParseBytes : String → Nat × Option Err)
    (sizeMap : SizeMap) (p : PVC) (post : List PVC)
    (h : joinStep config ParseBytes sizeMap p = some ([], [])) :
    ∀ (pre : List PVC), joinLoop config ParseBytes sizeMap (pre ++ p :: post) =
      joinLoop config ParseBytes sizeMap (pre ++ post)
  | [] => by
      rw [List.nil_append, List.nil_append, joinLoop_cons_some config ParseBytes sizeMap p post [] [] h]
      simp
  | q :: rest => by
      simp only [List.cons_append]
      rw [joinLoop, joinLoop, joinLoop_skip config ParseBytes sizeMap p post h rest]

/-! ## Lemmas: the sink -/

theorem lastWrite_nil (f : Family) (l : Labels) : lastWrite [] f l = none := rfl

theorem lastWrite_concat (ws : List GaugeWrite) (w : GaugeWrite) (f : Family) (l : Labels) :
    lastWrite (ws ++ [w]) f l =
      if w.family = f ∧ w.labels = l then some w.value else lastWrite ws f l := by
  unfold lastWrite
  by_cases h : w.family = f ∧ w.labels = l
  · simp [List.filter_append, List.filter_cons, h]
  · simp [List.filter_append, List.filter_cons, h]

theorem write_vec (m : Metrics) (w : GaugeWrite) (f : Family) (l : Labels) :
    (m.write w).vec f l = if w.family = f ∧ w.labels = l then some w.value else m.vec f l := by
  obtain ⟨wf, wl, wv⟩ := w
  cases wf <;> cases f <;> simp [Metrics.write, Metrics.vec, GaugeVec.set] <;>
    by_cases h : l = wl <;> simp [h, eq_comm]

theorem writeAll_vec (m : Metrics) (ws : List GaugeWrite) (f : Family) (l : Labels) :
    (m.writeAll ws).vec f l =
      match lastWrite ws f l with
      | some v => some v
      | none => m.vec f l := by
  induction ws using List.reverseRecOn with
  | nil => simp [Metrics.writeAll, lastWrite_nil]
  | append_singleton ws w ih =>
      have hfold : m.writeAll (ws ++ [w]) = (m.writeAll ws).write w := by
        simp [Metrics.writeAll, List.foldl_append]
      rw [hfold, write_vec, lastWrite_concat]
      by_cases h : w.family = f ∧ w.labels = l
      · simp [h]
      · simp only [h, if_false]
        exact ih

theorem lastWrite_eq_none (ws : List GaugeWrite) (f : Family) (l : Labels)
    (h : ∀ w ∈ ws, w.labels ≠ l) : lastWrite ws f l = none := by
  unfold lastWrite
  have : ws.filter (fun w => decide (w.family = f ∧ w.labels = l)) = [] := by
    rw [List.filter_eq_nil_iff]
    intro w hw
    simp [h w hw]
  rw [this]
  rfl

theorem lastWrite_isSome (ws : List GaugeWrite) (f : Family) (l : Labels)
    (h : ∃ w ∈ ws, w.family = f ∧ w.labels = l) :
    ∃ w ∈ ws, w.family = f ∧ w.labels = l ∧ lastWrite ws f l = some w.value := by
  obtain ⟨w0, hw0, hf0⟩ := h
  have hne : ws.filter (fun w => decide (w.family = f ∧ w.labels = l)) ≠ [] := by
    intro hnil
    rw [List.filter_eq_nil_iff] at hnil
    exact hnil w0 hw0 (by simpa using hf0)
  have hlast := List.getLast?_eq_getLast _ hne
  have hmem := List.getLast_mem hne
  rw [List.mem_filter] at hmem
  refine ⟨_, hmem.1, ?_, ?_, ?_⟩
  · exact (of_decide_eq_true hmem.2).1
  · exact (of_decide_eq_true hmem.2).2
  · unfold lastWrite
    rw [hlast]
    rfl


/-! ## Lemmas: rounding to float64 -/

theorem roundDiv_mul_left (c n d : Nat) (hc : 0 < c) :
    roundDiv (c * n) (c * d) = roundDiv n d := by
  unfold roundDiv
  simp only [Nat.mul_div_mul_left _ _ hc, Nat.mul_mod_mul_left]
  have h1 : (c * d < 2 * (c * (n % d))) ↔ (d < 2 * (n % d)) := by
    rw [show 2 * (c * (n % d)) = c * (2 * (n % d)) by ring]
    exact Nat.mul_lt_mul_left hc
  have h2 : (2 * (c * (n % d)) = c * d) ↔ (2 * (n % d) = d) := by
    rw [show 2 * (c * (n % d)) = c * (2 * (n % d)) by ring]
    exact Nat.mul_right_inj (Nat.pos_iff_ne_zero.mp hc)
  simp only [h1, h2]

theorem roundDiv_mul_self (x d : Nat) (hd : 0 < d) : roundDiv (x * d) d = x := by
  unfold roundDiv
  simp [Nat.mul_div_cancel _ hd, Nat.pos_iff_ne_zero.mp hd]
  omega

theorem float64_eq_roundDiv (n : Nat) :
    float64 n = roundDiv n (2 ^ float64Shift 12 n) * 2 ^ float64Shift 12 n := by
  unfold float64 roundDiv
  simp only
  split <;> rfl

theorem float64Shift_spec : ∀ (k n : Nat), n < 2 ^ (53 + k) →
    float64Shift k n ≤ k ∧ (float64Shift k n = 0 → n < 2 ^ 53) ∧
      (0 < float64Shift k n →
        2 ^ (52 + float64Shift k n) ≤ n ∧ n < 2 ^ (53 + float64Shift k n))
  | 0, n, h => by simpa [float64Shift] using h
  | k + 1, n, h => by
      unfold float64Shift
      by_cases hk : 2 ^ (53 + k) ≤ n
      · simp only [hk, if_true]
        refine ⟨le_refl _, by omega, fun _ => ⟨?_, h⟩⟩
        rw [show 52 + (k + 1) = 53 + k by omega]
        exact hk
      · simp only [hk, if_false]
        obtain ⟨h1, h2, h3⟩ := float64Shift_spec k n (by omega)
        exact ⟨by omega, h2, h3⟩

theorem float64Shift_unique : ∀ (k n e : Nat), 1 ≤ e → e ≤ k → 2 ^ (52 + e) ≤ n →
    n < 2 ^ (53 + e) → float64Shift k n = e
  | 0, n, e, h1, h2, _, _ => by omega
  | k + 1, n, e, h1, h2, h3, h4 => by
      unfold float64Shift
      by_cases hk : 2 ^ (53 + k) ≤ n
      · simp only [hk, if_true]
        have : 2 ^ (53 + k) < 2 ^ (53 + e) := lt_of_le_of_lt hk h4
        have := (Nat.pow_lt_pow_iff_right (by decide : 1 < 2)).mp this
        omega
      · simp only [hk, if_false]
        have hlt : 2 ^ (52 + e) < 2 ^ (53 + k) := lt_of_le_of_lt h3 (by omega)
        have := (Nat.pow_lt_pow_iff_right (by decide : 1 < 2)).mp hlt
        exact float64Shift_unique k n e h1 (by omega) h3 h4

theorem downShift_spec : ∀ (fuel x : Nat), x < 2 ^ (53 + fuel) →
    (downShift fuel x = 0 → x < 2 ^ 53) ∧
      (0 < downShift fuel x →
        2 ^ (52 + downShift fuel x) ≤ x ∧ x < 2 ^ (53 + downShift fuel x))
  | 0, x, h => by simpa [downShift] using h
  | fuel + 1, x, h => by
      unfold downShift
      by_cases hx : x < 2 ^ 53
      · rw [if_pos hx]
        exact ⟨fun _ => hx, fun h0 => absurd h0 (by omega)⟩
      · rw [if_neg hx]
        have hhalf : x / 2 < 2 ^ (53 + fuel) := by
          rw [Nat.div_lt_iff_lt_mul (by decide)]
          calc x < 2 ^ (53 + (fuel + 1)) := h
            _ = 2 ^ (53 + fuel) * 2 := by ring
        obtain ⟨h2, h3⟩ := downShift_spec fuel (x / 2) hhalf
        refine ⟨by omega, fun _ => ?_⟩
        rcases Nat.eq_zero_or_pos (downShift fuel (x / 2)) with h0 | hpos
        · have hlt := h2 h0
          rw [h0]
          have e1 : (2 : Nat) ^ (52 + (0 + 1)) = 2 ^ 53 := by norm_num
          have e2 : (2 : Nat) ^ (53 + (0 + 1)) = 2 ^ 53 * 2 := by norm_num
          rw [e1, e2]
          omega
        · obtain ⟨h4, h5⟩ := h3 hpos
          have e1 : (2 : Nat) ^ (52 + (downShift fuel (x / 2) + 1)) =
              2 ^ (52 + downShift fuel (x / 2)) * 2 := by ring
          have e2 : (2 : Nat) ^ (53 + (downShift fuel (x / 2) + 1)) =
              2 ^ (53 + downShift fuel (x / 2)) * 2 := by ring
          rw [e1, e2]
          omega

theorem lt_two_pow_self_add (x : Nat) : x < 2 ^ (53 + x) :=
  lt_of_lt_of_le (Nat.lt_two_pow x) (Nat.pow_le_pow_right (by decide) (by omega))

theorem downShift_eq_float64Shift (x : Nat) (h1 : 2 ^ 53 ≤ x) (h2 : x < 2 ^ 65) :
    downShift x x = float64Shift 12 x := by
  obtain ⟨hz, hp⟩ := downShift_spec x x (lt_two_pow_self_add x)
  have hpos : 0 < downShift x x := by
    rcases Nat.eq_zero_or_pos (downShift x x) with h0 | h0
    · have := hz h0
      omega
    · exact h0
  obtain ⟨ha, hb⟩ := hp hpos
  have hle : downShift x x ≤ 12 := by
    have hlt : 2 ^ (52 + downShift x x) < 2 ^ 65 := lt_of_le_of_lt ha h2
    have := (Nat.pow_lt_pow_iff_right (by decide : 1 < 2)).mp hlt
    omega
  exact (float64Shift_unique 12 x _ hpos hle ha hb).symm

theorem roundDiv_bounds (n d : Nat) : n / d ≤ roundDiv n d ∧ roundDiv n d ≤ n / d + 1 := by
  unfold roundDiv
  simp only
  split <;> omega

theorem float64_large (n : Nat) (h1 : 2 ^ 53 ≤ n) (h2 : n < 2 ^ 65) :
    1 ≤ float64Shift 12 n ∧ float64Shift 12 n ≤ 12 ∧
      2 ^ (52 + float64Shift 12 n) ≤ n ∧ n < 2 ^ (53 + float64Shift 12 n) ∧
      2 ^ 52 ≤ roundDiv n (2 ^ float64Shift 12 n) ∧
      roundDiv n (2 ^ float64Shift 12 n) ≤ 2 ^ 53 := by
  obtain ⟨hle, hz, hp⟩ := float64Shift_spec 12 n (by simpa using h2)
  have hpos : 0 < float64Shift 12 n := by
    rcases Nat.eq_zero_or_pos (float64Shift 12 n) with h0 | h0
    · have := hz h0
      omega
    · exact h0
  obtain ⟨ha, hb⟩ := hp hpos
  have hb1 := roundDiv_bounds n (2 ^ float64Shift 12 n)
  have hpow : 0 < 2 ^ float64Shift 12 n := Nat.pow_pos (by decide)
  have hlo : 2 ^ 52 ≤ n / 2 ^ float64Shift 12 n := by
    rw [Nat.le_div_iff_mul_le hpow, ← pow_add]
    exact ha
  have hhi : n / 2 ^ float64Shift 12 n < 2 ^ 53 := by
    rw [Nat.div_lt_iff_lt_mul hpow, ← pow_add]
    exact hb
  exact ⟨hpos, hle, ha, hb, by omega, by omega⟩

theorem float64_idem (n : Nat) (h : n < 2 ^ 64) : float64 (float64 n) = float64 n := by
  rcases Nat.lt_or_ge n (2 ^ 53) with hlt | hge
  · rw [float64_exact n (le_of_lt hlt), float64_exact n (le_of_lt hlt)]
  · obtain ⟨h1, _, ha, hb, hlo, hhi⟩ := float64_large n hge (by omega)
    have he : float64Shift 12 n ≤ 11 := by
      have hlt : 2 ^ (52 + float64Shift 12 n) < 2 ^ 64 := lt_of_le_of_lt ha h
      have := (Nat.pow_lt_pow_iff_right (by decide : 1 < 2)).mp hlt
      omega
    have hF := float64_eq_roundDiv n
    generalize float64Shift 12 n = e at *
    generalize roundDiv n (2 ^ e) = q at *
    have hpow : 0 < 2 ^ e := Nat.pow_pos (by decide)
    rw [hF]
    rcases Nat.lt_or_ge q (2 ^ 53) with hq | hq
    · have hs : float64Shift 12 (q * 2 ^ e) = e := by
        apply float64Shift_unique 12 _ e h1 (by omega)
        · rw [pow_add]
          exact Nat.mul_le_mul_right _ hlo
        · rw [pow_add]
          exact Nat.mul_lt_mul_of_pos_right hq hpow
      rw [float64_eq_roundDiv, hs, roundDiv_mul_self _ _ hpow]
    · have hq2 : q = 2 ^ 53 := le_antisymm hhi hq
      subst hq2
      have hval : 2 ^ 53 * 2 ^ e = 2 ^ 52 * 2 ^ (e + 1) := by ring
      have hs : float64Shift 12 (2 ^ 53 * 2 ^ e) = e + 1 := by
        apply float64Shift_unique 12 _ (e + 1) (by omega) (by omega)
        · rw [hval, pow_add]
        · rw [hval, pow_add _ 53]
          exact Nat.mul_lt_mul_of_pos_right (by norm_num) (Nat.pow_pos (by decide))
      rw [float64_eq_roundDiv, hs, hval, roundDiv_mul_self _ _ (Nat.pow_pos (by decide))]

theorem float64_lt (n : Nat) (h : n < 2 ^ 63) : float64 n < 2 ^ 64 := by
  rcases Nat.lt_or_ge n (2 ^ 53) with hlt | hge
  · rw [float64_exact n (le_of_lt hlt)]
    omega
  · obtain ⟨_, _, ha, _, _, hhi⟩ := float64_large n hge (by omega)
    have he : float64Shift 12 n ≤ 10 := by
      have hlt : 2 ^ (52 + float64Shift 12 n) < 2 ^ 63 := lt_of_le_of_lt ha h
      have := (Nat.pow_lt_pow_iff_right (by decide : 1 < 2)).mp hlt
      omega
    rw [float64_eq_roundDiv]
    calc roundDiv n (2 ^ float64Shift 12 n) * 2 ^ float64Shift 12 n
        ≤ 2 ^ 53 * 2 ^ float64Shift 12 n := Nat.mul_le_mul_right _ hhi
      _ ≤ 2 ^ 53 * 2 ^ 10 := Nat.mul_le_mul_left _ (Nat.pow_le_pow_right (by decide) he)
      _ < 2 ^ 64 := by norm_num

theorem roundF64_whole (x d : Nat) (hd : 0 < d) (hx : x < 2 ^ 64) :
    ∃ t, roundF64 (x * d) d = ⟨float64 x * 2 ^ t, t⟩ := by
  unfold roundF64
  rcases Nat.eq_zero_or_pos x with h0 | hpos
  · subst h0
    exact ⟨0, by simp [float64_exact 0 (by norm_num)]⟩
  · have hn : x * d ≠ 0 := Nat.pos_iff_ne_zero.mp (Nat.mul_pos hpos hd)
    rw [if_neg hn]
    by_cases hb : d * 2 ^ 53 ≤ x * d
    · rw [if_pos hb]
      have hge : 2 ^ 53 ≤ x := by
        rw [Nat.mul_comm x d] at hb
        exact Nat.le_of_mul_le_mul_left hb hd
      refine ⟨0, ?_⟩
      simp only [Nat.mul_div_cancel _ hd]
      rw [downShift_eq_float64Shift x hge (by omega), Nat.mul_comm x d,
        roundDiv_mul_left d x _ hd, ← float64_eq_roundDiv]
      simp
    · rw [if_neg hb]
      have hlt : x < 2 ^ 53 := by
        by_contra hc
        apply hb
        rw [Nat.mul_comm x d]
        exact Nat.mul_le_mul_left _ (not_lt.mp hc)
      refine ⟨upShift (d + 53) (x * d) d, ?_⟩
      simp only
      rw [float64_exact x (le_of_lt hlt),
        show x * d * 2 ^ upShift (d + 53) (x * d) d = (x * 2 ^ upShift (d + 53) (x * d) d) * d by ring,
        roundDiv_mul_self _ _ hd]

/-! ## Lemmas: the conversion on serialized quantities -/

theorem isDigit_facts (c : Char) (h : c.isDigit = true) :
    isNumberRune c = true ∧ (c != ',') = true ∧ (c != '.') = true := by
  refine ⟨by simp [isNumberRune, h], ?_, ?_⟩
  · rw [bne_iff_ne]
    rintro rfl
    exact absurd h (by decide)
  · rw [bne_iff_ne]
    rintro rfl
    exact absurd h (by decide)

theorem takeWhile_append_stop (p : Char → Bool) (sfx : List Char)
    (hs : ∀ c, sfx.head? = some c → p c = false) :
    ∀ (ds : List Char), (∀ c ∈ ds, p c = true) →
      (ds ++ sfx).takeWhile p = ds ∧ (ds ++ sfx).dropWhile p = sfx
  | [], _ => by
      cases sfx with
      | nil => simp
      | cons c tl =>
          have := hs c rfl
          simp [List.takeWhile, List.dropWhile, this]
  | d :: ds, h => by
      have hd : p d = true := h d (List.mem_cons_self _ _)
      obtain ⟨h1, h2⟩ := takeWhile_append_stop p sfx hs ds
        (fun c hc => h c (List.mem_cons_of_mem _ hc))
      simp [List.takeWhile, List.dropWhile, hd, h1, h2]

theorem parseFloat_digits (ds : List Char) (hne : ds ≠ [])
    (hd : ∀ c ∈ ds, c.isDigit = true) (hm : digitsValue ds < 2 ^ 63) :
    ∃ t, parseFloat ds = .ok ⟨float64 (digitsValue ds) * 2 ^ t, t⟩ := by
  have hsplit := takeWhile_append_stop (fun c => c != '.') [] (by simp) ds
    (fun c hc => (isDigit_facts c (hd c hc)).2.2)
  rw [List.append_nil] at hsplit
  obtain ⟨t, ht⟩ := roundF64_whole (digitsValue ds) 1 (by decide) (by omega)
  rw [Nat.mul_one] at ht
  refine ⟨t, ?_⟩
  have hall : ds.all Char.isDigit = true := List.all_eq_true.mpr hd
  have hemp : ds.isEmpty = false := by
    cases ds with
    | nil => exact absurd rfl hne
    | cons _ _ => rfl
  have hF := float64_lt (digitsValue ds) hm
  have hover : ¬ ((2 ^ 256) ^ 4 * 2 ^ t ≤ float64 (digitsValue ds) * 2 ^ t) := by
    intro hc
    have := Nat.le_of_mul_le_mul_right hc (Nat.pow_pos (by decide))
    have h2 : (2 : Nat) ^ 64 ≤ (2 ^ 256) ^ 4 := by norm_num
    omega
  unfold parseFloat
  simp only [hsplit.1, hsplit.2, List.drop_nil, List.append_nil, hall, hemp, List.length_nil,
    pow_zero, ht, Bool.not_true, Bool.or_false, Bool.false_eq_true, if_false, hover]

theorem humanizeParseBytes_digits (ds sfx : List Char) (unit : Nat) (hne : ds ≠ [])
    (hd : ∀ c ∈ ds, c.isDigit = true)
    (hhead : ∀ c, sfx.head? = some c → isNumberRune c = false)
    (htable : bytesSizeTable.lookup (String.mk ((trimSpace sfx).map Char.toLower)) = some unit)
    (hm : digitsValue ds < 2 ^ 63)
    (hx : float64 (digitsValue ds) * unit < 2 ^ 64)
    (hy : float64 (float64 (digitsValue ds) * unit) < 2 ^ 64) :
    humanizeParseBytes (String.mk (ds ++ sfx)) =
      (float64 (float64 (digitsValue ds) * unit), none) := by
  obtain ⟨hsplit1, hsplit2⟩ := takeWhile_append_stop isNumberRune sfx hhead ds
    (fun c hc => (isDigit_facts c (hd c hc)).1)
  have hfilter : ds.filter (fun c => c != ',') = ds :=
    List.filter_eq_self.mpr (fun c hc => (isDigit_facts c (hd c hc)).2.1)
  obtain ⟨t, ht⟩ := parseFloat_digits ds hne hd hm
  obtain ⟨u, hu⟩ := roundF64_whole (float64 (digitsValue ds) * unit) (2 ^ t)
    (Nat.pow_pos (by decide)) hx
  have hprod : float64 (digitsValue ds) * 2 ^ t * unit =
      float64 (digitsValue ds) * unit * 2 ^ t := by ring
  have hcheck : ¬ (2 ^ 64 * 2 ^ u ≤ float64 (float64 (digitsValue ds) * unit) * 2 ^ u) := by
    intro hc
    have := Nat.le_of_mul_le_mul_right hc (Nat.pow_pos (by decide))
    omega
  unfold humanizeParseBytes
  simp only [hsplit1, hsplit2, hfilter, ht, htable, hprod, hu, hcheck, if_false,
    Nat.mul_div_cancel _ (Nat.pow_pos (by decide : 0 < 2))]

theorem sharedSuffixes_table : ∀ sfx ∈ sharedSuffixes,
    (∀ c, sfx.text.data.head? = some c → isNumberRune c = false) ∧
      bytesSizeTable.lookup (String.mk ((trimSpace sfx.text.data).map Char.toLower)) =
        some sfx.multiplier.1 ∧
      sfx.multiplier.2 = 1 ∧ (sfx = .unit ∨ 1000 ≤ sfx.multiplier.1) ∧
      (sfx = .unit → sfx.multiplier.1 = 1) := by
  intro sfx h
  simp only [sharedSuffixes, List.mem_cons, List.mem_singleton, List.not_mem_nil, or_false] at h
  rcases h with h | h | h | h | h | h | h | h | h | h | h | h | h <;> subst h <;>
    refine ⟨?_, by decide, rfl, by decide, by decide⟩ <;>
    · intro c hc
      simp only [Suffix.text, List.head?_cons, List.head?_nil, Option.some.injEq] at hc
      first
        | exact absurd hc (by simp)
        | (subst hc; decide)

theorem humanizeParseBytes_quantity (q : Quantity) (b : Nat) (hwf : q.wellFormed = true)
    (hsfx : q.suffix ∈ sharedSuffixes) (hval : q.value = (b, 1))
    (hmant : digitsValue q.digits < 2 ^ 53 ∨ q.suffix = .unit) (hcap : b < 2 ^ 63) :
    humanizeParseBytes q.String = (float64 b, none) := by
  obtain ⟨hhead, htable, _, hbig, hone⟩ := sharedSuffixes_table q.suffix hsfx
  have hb : b = digitsValue q.digits * q.suffix.multiplier.1 := by
    have := congrArg Prod.fst hval
    simpa [Quantity.value] using this.symm
  have hwf2 : q.digits ≠ [] ∧ ∀ c ∈ q.digits, c.isDigit = true := by
    unfold Quantity.wellFormed at hwf
    rw [Bool.and_eq_true] at hwf
    refine ⟨?_, List.all_eq_true.mp hwf.2⟩
    intro hnil
    rw [hnil] at hwf
    simp at hwf
  have hupos : 1 ≤ q.suffix.multiplier.1 := by
    rcases hbig with h | h
    · rw [hone h]
    · omega
  have hm : digitsValue q.digits < 2 ^ 63 := by
    calc digitsValue q.digits = digitsValue q.digits * 1 := (Nat.mul_one _).symm
      _ ≤ digitsValue q.digits * q.suffix.multiplier.1 := Nat.mul_le_mul_left _ hupos
      _ < 2 ^ 63 := by rw [← hb]; exact hcap
  have hstr : q.String = String.mk (q.digits ++ q.suffix.text.data) := by
    unfold Quantity.String
    apply String.ext
    simp [String.data_append]
  have key2 : float64 (digitsValue q.digits) * q.suffix.multiplier.1 < 2 ^ 64 ∧
      float64 (float64 (digitsValue q.digits) * q.suffix.multiplier.1) = float64 b := by
    rcases hmant with hlt | hu
    · rw [float64_exact _ (le_of_lt hlt), ← hb]
      exact ⟨by omega, rfl⟩
    · rw [hone hu, Nat.mul_one] at hb ⊢
      rw [hb]
      exact ⟨float64_lt _ hm, float64_idem _ (by omega)⟩
  rw [hstr, humanizeParseBytes_digits q.digits q.suffix.text.data q.suffix.multiplier.1
    hwf2.1 hwf2.2 hhead htable hm key2.1 (by rw [key2.2]; exact float64_lt b hcap), key2.2]

/-! ## Lemmas: the tick -/

theorem RecordMetricsTick_writes (config : Config) (ParseBytes : String → Nat × Option Err)
    (inp : TickInput) :
    (RecordMetricsTick config ParseBytes inp).writes =
      (joinLoop config ParseBytes (tickSizeMap inp) inp.pvcItems).writes := rfl

theorem RecordMetricsTick_outcome (config : Config) (ParseBytes : String → Nat × Option Err)
    (inp : TickInput) :
    (RecordMetricsTick config ParseBytes inp).outcome =
      (joinLoop config ParseBytes (tickSizeMap inp) inp.pvcItems).outcome := rfl

theorem joinLoop_empty_map (config : Config) (ParseBytes : String → Nat × Option Err) :
    ∀ (pvcs : List PVC), (joinLoop config ParseBytes (fun _ => none) pvcs).writes = []
  | [] => rfl
  | p :: rest => by
      cases hs : joinStep config ParseBytes (fun _ => none) p with
      | none => rw [joinLoop_cons_none config ParseBytes _ p rest hs]
      | some r =>
          obtain ⟨ws, ls⟩ := r
          rw [joinLoop_cons_some config ParseBytes _ p rest ws ls hs]
          have hws : ws = [] := by
            cases ws with
            | nil => rfl
            | cons w tl =>
                have := (joinStep_writes config ParseBytes _ p _ ls hs w (List.mem_cons_self _ _)).2.1
                simp at this
          simp [hws, joinLoop_empty_map config ParseBytes rest]

theorem sizeMapLoop_logs_mem (es : List (String × Node)) :
    ∀ (m : SizeMap) (l : List Err) (x : Err), x ∈ l → x ∈ (sizeMapLoop es (m, l)).2 := by
  induction es with
  | nil => intro m l x hx; exact hx
  | cons e0 rest ih =>
      intro m l x hx
      obtain ⟨n0, node⟩ := e0
      simp only [sizeMapLoop]
      apply ih
      cases (DirSize node).2 with
      | none => exact hx
      | some e1 => exact List.mem_append_left _ hx

/-! ## The claims -/

/-- C7, counterexample. Three accessible files of 2 ^ 63 - 1 bytes each hold
27670116110564327421 bytes together, and `DirSize` returns
9223372036854775805: the 64-bit accumulator wrapped around. -/
theorem DirSize_wraps_beyond_64_bits :
    hugeVolume.accessible = true ∧ hugeVolume.fileBytes = 27670116110564327421 ∧
      DirSize hugeVolume = (9223372036854775805, none) := by
  decide

/-- C7, amended. For a tree in which every entry is accessible `DirSize`
returns no error and the sum of the sizes of all non-directory entries under
the path taken modulo 2 ^ 64, directories contributing nothing; this is the
sum itself whenever the sum is below 2 ^ 64, and 0 for an empty directory. -/
theorem DirSize_accessible_sum (n : Node) (h : n.accessible = true) :
    DirSize n = (n.fileBytes % 2 ^ 64, none) ∧
      (n.fileBytes < 2 ^ 64 → DirSize n = (n.fileBytes, none)) ∧
      (∀ sz, DirSize (.dir sz []) = (0, none)) := by
  have h1 := DirSize_of_accessible n h
  refine ⟨h1, ?_, ?_⟩
  · intro hlt
    rw [h1, Nat.mod_eq_of_lt hlt]
  · intro sz
    rfl

/-- C7, witness: a nested accessible tree of 200 + 300 bytes. -/
theorem DirSize_accessible_sum_witness :
    (Node.dir 4096 [("a", .file 200), ("b", .dir 4096 [("c", .file 300)])]).accessible = true ∧
      DirSize (.dir 4096 [("a", .file 200), ("b", .dir 4096 [("c", .file 300)])]) = (500, none) :=
  ⟨by decide,
    (DirSize_accessible_sum (.dir 4096 [("a", .file 200), ("b", .dir 4096 [("c", .file 300)])])
      (by decide)).2.1 (by decide)⟩

/-- C5, counterexample. The size probe of the only child fails (a
subdirectory cannot be read) and the child is in the size map all the same,
with the bytes counted before the error; it is then joined to its claim. -/
theorem failed_probe_child_is_in_size_map :
    DirSize lockedVolume = (200, some "open locked: permission denied") ∧
      tickSizeMap lockedInput "vol2_ns1_pvc2" = some 200 ∧
      (RecordMetricsTick exampleConfig exampleParseBytes lockedInput).writes =
        [⟨.pvcRequestedBytes, labels2, 0⟩, ⟨.pvcUsedBytes, labels2, 200⟩] := by
  decide

/-- C5, amended. For every listing of the root path (names distinct, as in a
directory), the size map built in a tick has a key for a name if and only if
the listing has a child of that name, whether or not `DirSize` returned an
error for it, and the value under the name of a child is the byte count
`DirSize` returned for it. -/
theorem tickSizeMap_has_every_child (inp : TickInput)
    (hnames : (inp.entries.map Prod.fst).Nodup) :
    (∀ name, (tickSizeMap inp name).isSome = true ↔ name ∈ inp.entries.map Prod.fst) ∧
      (∀ e ∈ inp.entries, tickSizeMap inp e.1 = some (DirSize e.2).1) := by
  refine ⟨?_, ?_⟩
  · intro name
    unfold tickSizeMap
    rw [sizeMapLoop_isSome]
    simp
  · intro e he
    exact sizeMapLoop_mem inp.entries _ _ hnames e he

/-- C5, witness: the listing whose only child fails its probe. -/
theorem tickSizeMap_has_every_child_witness :
    (lockedInput.entries.map Prod.fst).Nodup ∧
      (DirSize lockedVolume).2 ≠ none ∧
      tickSizeMap lockedInput "vol2_ns1_pvc2" = some (DirSize lockedVolume).1 :=
  ⟨by decide, by decide,
    (tickSizeMap_has_every_child lockedInput (by decide)).2 ("vol2_ns1_pvc2", lockedVolume)
      (List.mem_cons_self _ _)⟩

/-- C6, counterexample. Listing the root returns one entry and an error; the
tick still joins and publishes: it writes both gauges of pvc1 and the sink
changes. -/
theorem readDir_error_tick_still_publishes :
    brokenListingInput.readDirErr ≠ none ∧
      (RecordMetricsTick exampleConfig exampleParseBytes brokenListingInput).writes =
        [⟨.pvcRequestedBytes, labels1, 2147483648⟩, ⟨.pvcUsedBytes, labels1, 1000000⟩] ∧
      (sinkAfterTick exampleConfig exampleParseBytes brokenListingInput emptySink).view labels1 ≠
        emptySink.view labels1 := by
  decide

/-- C6, amended. When listing the root directory returns an error, the tick
logs it and still joins and publishes against the size map built from the
entries read before the error: its gauge writes and its end are those of a
tick whose listing returned the same entries without an error. When the
listing returned no entry, the tick performs no gauge write and the sink after
the tick equals the sink before it. -/
theorem readDir_error_is_logged_only (config : Config)
    (ParseBytes : String → Nat × Option Err) (entries : List (String × Node)) (e : Err)
    (pvcs : List PVC) (listErr : Option Err) (sink : Metrics) :
    e ∈ (RecordMetricsTick config ParseBytes ⟨entries, some e, pvcs, listErr⟩).logs ∧
      (RecordMetricsTick config ParseBytes ⟨entries, some e, pvcs, listErr⟩).writes =
        (RecordMetricsTick config ParseBytes ⟨entries, none, pvcs, listErr⟩).writes ∧
      (RecordMetricsTick config ParseBytes ⟨entries, some e, pvcs, listErr⟩).outcome =
        (RecordMetricsTick config ParseBytes ⟨entries, none, pvcs, listErr⟩).outcome ∧
      (RecordMetricsTick config ParseBytes ⟨[], some e, pvcs, listErr⟩).writes = [] ∧
      sinkAfterTick config ParseBytes ⟨[], some e, pvcs, listErr⟩ sink = sink := by
  have hmap : tickSizeMap ⟨entries, some e, pvcs, listErr⟩ =
      tickSizeMap ⟨entries, none, pvcs, listErr⟩ := by
    unfold tickSizeMap
    exact sizeMapLoop_fst_logs entries _ _ _
  have hempty : (RecordMetricsTick config ParseBytes ⟨[], some e, pvcs, listErr⟩).writes = [] := by
    rw [RecordMetricsTick_writes]
    exact joinLoop_empty_map config ParseBytes pvcs
  refine ⟨?_, ?_, ?_, hempty, ?_⟩
  · have hlog : e ∈ (sizeMapLoop entries ((fun _ => none : SizeMap), [e])).2 :=
      sizeMapLoop_logs_mem entries _ _ e (List.mem_singleton_self e)
    show e ∈ ((sizeMapLoop entries ((fun _ => none : SizeMap), [e])).2 ++ logErr listErr) ++ _
    exact List.mem_append_left _ (List.mem_append_left _ hlog)
  · rw [RecordMetricsTick_writes, RecordMetricsTick_writes, hmap]
  · rw [RecordMetricsTick_outcome, RecordMetricsTick_outcome, hmap]
  · unfold sinkAfterTick
    rw [hempty]
    rfl


/-- C8, counterexample. The names of the two families `NewMetrics` registers
are not storage_requested_bytes and storage_used_bytes. -/
theorem NewMetrics_names_are_not_storage :
    (NewMetrics []).map (fun reg => reg.map GaugeDesc.Name) ≠
      some ["storage_requested_bytes", "storage_used_bytes"] := by
  decide

/-- C8, amended. `NewMetrics` registers exactly two gauge families, named
pvc_requested_bytes and pvc_used_bytes, and each is labelled by exactly the
four labels (pvcname, namespace, storageclass, pvname) in that order. -/
theorem NewMetrics_registers_pvc_gauges (reg : Registry)
    (hfree : ∀ d ∈ reg, d.Name ≠ "pvc_requested_bytes" ∧ d.Name ≠ "pvc_used_bytes") :
    NewMetrics reg = some (reg ++
      [⟨"pvc_requested_bytes", "The number of bytes requested by pvc",
          ["pvcname", "namespace", "storageclass", "pvname"]⟩,
       ⟨"pvc_used_bytes", "The number of bytes used by pvc",
          ["pvcname", "namespace", "storageclass", "pvname"]⟩]) := by
  have h1 : (reg.any fun d => d.Name == "pvc_requested_bytes") = false := by
    rw [List.any_eq_false]
    intro d hd
    simpa using (hfree d hd).1
  have h2 : (reg.any fun d => d.Name == "pvc_used_bytes") = false := by
    rw [List.any_eq_false]
    intro d hd
    simpa using (hfree d hd).2
  simp [NewMetrics, MustRegister, h1, h2]

/-- C8, witness: the fresh registry of `main`. -/
theorem NewMetrics_registers_pvc_gauges_witness :
    NewMetrics [] = some
      [⟨"pvc_requested_bytes", "The number of bytes requested by pvc",
          ["pvcname", "namespace", "storageclass", "pvname"]⟩,
       ⟨"pvc_used_bytes", "The number of bytes used by pvc",
          ["pvcname", "namespace", "storageclass", "pvname"]⟩] :=
  NewMetrics_registers_pvc_gauges [] (by simp)

/-- C10. The join key volumeName ++ "_" ++ namespace ++ "_" ++ pvcName is
injective on triples whose components contain no underscore: equal keys give
equal volume names, namespaces and claim names. -/
theorem key_injective_of_no_underscore (v n p v' n' p' : String)
    (hv : '_' ∉ v.toList) (hn : '_' ∉ n.toList) (_hp : '_' ∉ p.toList)
    (hv' : '_' ∉ v'.toList) (hn' : '_' ∉ n'.toList) (_hp' : '_' ∉ p'.toList)
    (h : key v n p = key v' n' p') : v = v' ∧ n = n' ∧ p = p' := by
  have hd := congrArg String.data h
  rw [key_data, key_data] at hd
  obtain ⟨e1, r1⟩ := append_cons_inj_of_not_mem v.data v'.data _ _ hv hv' hd
  obtain ⟨e2, e3⟩ := append_cons_inj_of_not_mem n.data n'.data _ _ hn hn' r1
  exact ⟨String.ext e1, String.ext e2, String.ext e3⟩

/-- C10, witness: the key of the scenario. -/
theorem key_injective_of_no_underscore_witness :
    key "vol1" "ns1" "pvc1" = "vol1_ns1_pvc1" ∧
      ("vol1" = "vol" ++ "1" ∧ "ns1" = "ns" ++ "1" ∧ "pvc1" = "pvc" ++ "1") :=
  ⟨by decide,
    key_injective_of_no_underscore "vol1" "ns1" "pvc1" ("vol" ++ "1") ("ns" ++ "1") ("pvc" ++ "1")
      (by decide) (by decide) (by decide) (by decide) (by decide) (by decide) (by decide)⟩


/-- C1. For every inventory map, every list of claims with non-nil storage
class and every target class, the join loop of a tick ends normally and
writes a gauge for a label set only if some claim of the list has that name,
namespace, class and volume, its class is the target class and its key is in
the inventory map. A claim of another class and a claim whose key is absent
from the inventory contribute nothing (the tick is the same without them),
and a key no target-class claim has is the key of no gauge write. -/
theorem joinLoop_writes_only_joined_claims (config : Config)
    (ParseBytes : String → Nat × Option Err) (sizeMap : SizeMap) (pvcs : List PVC)
    (hclass : ∀ p ∈ pvcs, p.StorageClassName ≠ none) :
    (joinLoop config ParseBytes sizeMap pvcs).outcome = .sleeping ∧
      (∀ w ∈ (joinLoop config ParseBytes sizeMap pvcs).writes, ∃ p ∈ pvcs,
        p.StorageClassName = some config.StorageClass ∧
        (sizeMap (key p.VolumeName p.Namespace p.Name)).isSome = true ∧
        w.labels = ⟨p.Name, p.Namespace, config.StorageClass, p.VolumeName⟩) ∧
      (∀ pre p post, pvcs = pre ++ p :: post →
        (p.StorageClassName ≠ some config.StorageClass ∨
          sizeMap (key p.VolumeName p.Namespace p.Name) = none) →
        joinLoop config ParseBytes sizeMap pvcs = joinLoop config ParseBytes sizeMap (pre ++ post)) ∧
      (∀ k, (∀ p ∈ pvcs, p.StorageClassName = some config.StorageClass →
          key p.VolumeName p.Namespace p.Name ≠ k) →
        ∀ w ∈ (joinLoop config ParseBytes sizeMap pvcs).writes,
          key w.labels.pvname w.labels.namespace_ w.labels.pvcname ≠ k) := by
  have hmem : ∀ w ∈ (joinLoop config ParseBytes sizeMap pvcs).writes, ∃ p ∈ pvcs,
      p.StorageClassName = some config.StorageClass ∧
      (sizeMap (key p.VolumeName p.Namespace p.Name)).isSome = true ∧
      w.labels = ⟨p.Name, p.Namespace, config.StorageClass, p.VolumeName⟩ := by
    intro w hw
    obtain ⟨p, hp, ws, ls, hs, hws⟩ := joinLoop_mem_writes config ParseBytes sizeMap pvcs w hw
    exact ⟨p, hp, joinStep_writes config ParseBytes sizeMap p ws ls hs w hws⟩
  refine ⟨joinLoop_outcome config ParseBytes sizeMap pvcs hclass, hmem, ?_, ?_⟩
  · intro pre p post hsplit hp
    subst hsplit
    have hnn : p.StorageClassName ≠ none := hclass p (by simp)
    have hstep : joinStep config ParseBytes sizeMap p = some ([], []) := by
      unfold joinStep
      cases hc : p.StorageClassName with
      | none => exact absurd hc hnn
      | some sc =>
          by_cases hsc : sc = config.StorageClass
          · rcases hp with hp | hp
            · exact absurd (by rw [hc, hsc]) hp
            · simp [hsc, hp]
          · simp [hsc]
    exact joinLoop_skip config ParseBytes sizeMap p post hstep pre
  · intro k hk w hw
    obtain ⟨p, hp, hc, _, hl⟩ := hmem w hw
    rw [hl]
    exact hk p hp hc

/-- C1, witness: the claim of the scenario, the same claim under another
class, and a target-class claim without a directory; only pvc1 is written,
and the directory no claim points to is the key of no write. -/
theorem joinLoop_writes_only_joined_claims_witness :
    (∀ p ∈ [pvc1, pvcOtherClass, pvcNoDir], p.StorageClassName ≠ none) ∧
      (joinLoop exampleConfig exampleParseBytes (tickSizeMap (exampleInput []))
          [pvc1, pvcOtherClass, pvcNoDir]).writes =
        [⟨.pvcRequestedBytes, labels1, 2147483648⟩, ⟨.pvcUsedBytes, labels1, 1000000⟩] ∧
      (∀ w ∈ (joinLoop exampleConfig exampleParseBytes (tickSizeMap (exampleInput []))
          [pvc1, pvcOtherClass, pvcNoDir]).writes,
        key w.labels.pvname w.labels.namespace_ w.labels.pvcname ≠ "vol7_ns7_gone") :=
  ⟨by decide, by decide,
    (joinLoop_writes_only_joined_claims exampleConfig exampleParseBytes
      (tickSizeMap (exampleInput [])) [pvc1, pvcOtherClass, pvcNoDir] (by decide)).2.2.2
      "vol7_ns7_gone" (by decide)⟩

/-- C2, counterexample. With a directory of 2 ^ 53 + 1 bytes under the key of
pvc1, the used-bytes gauge of pvc1 is set to 2 ^ 53, not to the inventory
size: the value passes through `float64`. The requested side fails likewise
outside the shared suffixes and small mantissas: the well-formed quantity 1e3
denotes 1000 bytes and the requested-bytes gauge is set to 0, and the
well-formed quantity 9007199254740993k denotes 9007199254740993000 bytes,
whose float64 is 9007199254740993024, and the conversion returns
9007199254740992000. -/
theorem used_gauge_rounds_inventory_size :
    (bigSizeMap (key pvc1.VolumeName pvc1.Namespace pvc1.Name) = some 9007199254740993 ∧
      joinStep exampleConfig humanizeParseBytes bigSizeMap pvc1 =
        some ([⟨.pvcRequestedBytes, labels1, 2147483648⟩,
               ⟨.pvcUsedBytes, labels1, 9007199254740992⟩], [])) ∧
      (pvcBadQuantity.StorageRequest = (Quantity.mk ['1'] (.exponent 3)).String ∧
        (Quantity.mk ['1'] (.exponent 3)).wellFormed = true ∧
        (Quantity.mk ['1'] (.exponent 3)).value = (1000, 1) ∧
        (RecordMetricsTick exampleConfig humanizeParseBytes
          (exampleInput [pvcBadQuantity])).writes =
          [⟨.pvcRequestedBytes, labels2, 0⟩, ⟨.pvcUsedBytes, labels2, 500⟩]) ∧
      ((Quantity.mk "9007199254740993".data .kilo).wellFormed = true ∧
        (Quantity.mk "9007199254740993".data .kilo).value = (9007199254740993000, 1) ∧
        float64 9007199254740993000 = 9007199254740993024 ∧
        humanizeParseBytes (Quantity.mk "9007199254740993".data .kilo).String =
          (9007199254740992000, none)) := by
  refine ⟨⟨by decide, by decide⟩, ⟨by decide, by decide, by decide, by decide⟩,
    ⟨by decide, by decide, by decide, by decide⟩⟩

/-- C2, amended. For every claim whose storage class equals the target class,
whose key is in the inventory map and whose requested quantity is well formed,
carries no suffix or one of k, M, G, T, P, E, Ki, Mi, Gi, Ti, Pi, Ei, has a
mantissa below 2 ^ 53 unless it carries no suffix, and denotes fewer than
2 ^ 63 bytes, the loop body with the conversion `humanize.ParseBytes` emits
exactly one record for it: one write to each gauge, labelled (name, namespace,
class, volume), the used-bytes value being float64 of the inventory size and
the requested-bytes value float64 of the number of bytes the quantity denotes,
each the integer itself up to 2 ^ 53. In a tick that reaches the claim (no
claim before it in the list has a nil storage class) the record stands between
the writes of the claims before and after it. -/
theorem joinStep_matched_claim_record (config : Config) (sizeMap : SizeMap) (pvc : PVC)
    (used : Nat) (q : Quantity) (b : Nat) (pre post : List PVC)
    (hclass : pvc.StorageClassName = some config.StorageClass)
    (hkey : sizeMap (key pvc.VolumeName pvc.Namespace pvc.Name) = some used)
    (hq : pvc.StorageRequest = q.String) (hwf : q.wellFormed = true)
    (hsfx : q.suffix ∈ sharedSuffixes) (hval : q.value = (b, 1))
    (hmant : digitsValue q.digits < 2 ^ 53 ∨ q.suffix = .unit) (hcap : b < 2 ^ 63)
    (hpre : ∀ p ∈ pre, p.StorageClassName ≠ none) :
    joinStep config humanizeParseBytes sizeMap pvc =
        some ([⟨.pvcRequestedBytes,
                ⟨pvc.Name, pvc.Namespace, config.StorageClass, pvc.VolumeName⟩, float64 b⟩,
               ⟨.pvcUsedBytes,
                ⟨pvc.Name, pvc.Namespace, config.StorageClass, pvc.VolumeName⟩, float64 used⟩],
              []) ∧
      (b ≤ 2 ^ 53 → float64 b = b) ∧
      (used ≤ 2 ^ 53 → float64 used = used) ∧
      (joinLoop config humanizeParseBytes sizeMap (pre ++ pvc :: post)).writes =
        (joinLoop config humanizeParseBytes sizeMap pre).writes ++
          [⟨.pvcRequestedBytes,
              ⟨pvc.Name, pvc.Namespace, config.StorageClass, pvc.VolumeName⟩, float64 b⟩,
           ⟨.pvcUsedBytes,
              ⟨pvc.Name, pvc.Namespace, config.StorageClass, pvc.VolumeName⟩, float64 used⟩] ++
          (joinLoop config humanizeParseBytes sizeMap post).writes := by
  have hparse : humanizeParseBytes pvc.StorageRequest = (float64 b, none) := by
    rw [hq]
    exact humanizeParseBytes_quantity q b hwf hsfx hval hmant hcap
  have hstep : joinStep config humanizeParseBytes sizeMap pvc =
      some ([⟨.pvcRequestedBytes,
              ⟨pvc.Name, pvc.Namespace, config.StorageClass, pvc.VolumeName⟩, float64 b⟩,
             ⟨.pvcUsedBytes,
              ⟨pvc.Name, pvc.Namespace, config.StorageClass, pvc.VolumeName⟩, float64 used⟩],
            []) := by
    simp [joinStep, hclass, hkey, hparse, labelsOf, float64_idem b (by omega)]
  refine ⟨hstep, float64_exact b, float64_exact used, ?_⟩
  rw [joinLoop_append config humanizeParseBytes sizeMap (pvc :: post) pre
      (joinLoop_outcome config humanizeParseBytes sizeMap pre hpre),
    joinLoop_cons_some config humanizeParseBytes sizeMap pvc post _ _ hstep]
  simp

/-- C2, witness: the scenario. Directory vol1_ns1_pvc1 of 1,000,000 bytes and
claim pvc1/ns1/vol1 of class local-path requesting 2Gi give one record with
used bytes 1000000 and requested bytes 2147483648. -/
theorem joinStep_matched_claim_record_witness :
    pvc1.StorageRequest = (Quantity.mk ['2'] .gibi).String ∧
      (Quantity.mk ['2'] .gibi).value = (2147483648, 1) ∧
      joinStep exampleConfig humanizeParseBytes (tickSizeMap (exampleInput [pvc1])) pvc1 =
        some ([⟨.pvcRequestedBytes, ⟨"pvc1", "ns1", "local-path", "vol1"⟩, 2147483648⟩,
               ⟨.pvcUsedBytes, ⟨"pvc1", "ns1", "local-path", "vol1"⟩, 1000000⟩], []) ∧
      (RecordMetricsTick exampleConfig humanizeParseBytes (exampleInput [pvc1])).writes =
        [⟨.pvcRequestedBytes, ⟨"pvc1", "ns1", "local-path", "vol1"⟩, 2147483648⟩,
         ⟨.pvcUsedBytes, ⟨"pvc1", "ns1", "local-path", "vol1"⟩, 1000000⟩] :=
  ⟨by decide, by decide,
    (joinStep_matched_claim_record exampleConfig (tickSizeMap (exampleInput [pvc1])) pvc1
      1000000 (Quantity.mk ['2'] .gibi) 2147483648 [] []
      (by decide) (by decide) (by decide) (by decide) (by decide) (by decide) (by decide)
      (by decide) (by decide)).1,
    by decide⟩

/-- C3, the code at the failing input. A claim without a storage class makes
the tick panic on the nil pointer at line 118: the tick does not reach its
sleep, and the claim behind it, which is written when the nil-class claim is
not in the list, is not processed. -/
theorem nil_storage_class_panics :
    (RecordMetricsTick exampleConfig exampleParseBytes
        (exampleInput [pvcNilClass, pvc1])).outcome = .nilPointerPanic ∧
      (RecordMetricsTick exampleConfig exampleParseBytes
        (exampleInput [pvcNilClass, pvc1])).writes = [] ∧
      (RecordMetricsTick exampleConfig exampleParseBytes (exampleInput [pvc1])).writes =
        [⟨.pvcRequestedBytes, labels1, 2147483648⟩, ⟨.pvcUsedBytes, labels1, 1000000⟩] := by
  decide

/-- C4, counterexample. The quantity string of pvc2 does not convert; the
tick logs the error and writes both gauges of pvc2 all the same, the
requested-bytes gauge with the 0 returned next to the error. -/
theorem failed_conversion_writes_both_gauges :
    (exampleParseBytes pvcBadQuantity.StorageRequest).2 ≠ none ∧
      (RecordMetricsTick exampleConfig exampleParseBytes
        (exampleInput [pvcBadQuantity])).writes =
        [⟨.pvcRequestedBytes, labels2, 0⟩, ⟨.pvcUsedBytes, labels2, 500⟩] := by
  decide

/-- C4, amended. For every claim that matches the target class and has its
key in the inventory map but whose quantity fails to convert to bytes, the
loop body logs the error and still writes both gauges for the label set of the
claim: the requested-bytes gauge with float64 of the value the conversion
returned next to the error, the used-bytes gauge with float64 of the inventory
size, each the integer itself up to 2 ^ 53. In a tick that reaches the claim
(no claim before it in the list has a nil storage class) all other records of
the tick are still emitted, before and after these two writes. -/
theorem joinStep_conversion_error_still_writes (config : Config)
    (ParseBytes : String → Nat × Option Err) (sizeMap : SizeMap) (pvc : PVC) (used bytes : Nat)
    (e : Err) (pre post : List PVC)
    (hclass : pvc.StorageClassName = some config.StorageClass)
    (hkey : sizeMap (key pvc.VolumeName pvc.Namespace pvc.Name) = some used)
    (hparse : ParseBytes pvc.StorageRequest = (bytes, some e))
    (hpre : ∀ p ∈ pre, p.StorageClassName ≠ none) :
    joinStep config ParseBytes sizeMap pvc =
        some ([⟨.pvcRequestedBytes,
                ⟨pvc.Name, pvc.Namespace, config.StorageClass, pvc.VolumeName⟩, float64 bytes⟩,
               ⟨.pvcUsedBytes,
                ⟨pvc.Name, pvc.Namespace, config.StorageClass, pvc.VolumeName⟩, float64 used⟩],
              [e]) ∧
      (bytes ≤ 2 ^ 53 → float64 bytes = bytes) ∧
      (used ≤ 2 ^ 53 → float64 used = used) ∧
      (joinLoop config ParseBytes sizeMap (pre ++ pvc :: post)).writes =
        (joinLoop config ParseBytes sizeMap pre).writes ++
          [⟨.pvcRequestedBytes,
              ⟨pvc.Name, pvc.Namespace, config.StorageClass, pvc.VolumeName⟩, float64 bytes⟩,
           ⟨.pvcUsedBytes,
              ⟨pvc.Name, pvc.Namespace, config.StorageClass, pvc.VolumeName⟩, float64 used⟩] ++
          (joinLoop config ParseBytes sizeMap post).writes := by
  have hstep : joinStep config ParseBytes sizeMap pvc =
      some ([⟨.pvcRequestedBytes,
              ⟨pvc.Name, pvc.Namespace, config.StorageClass, pvc.VolumeName⟩, float64 bytes⟩,
             ⟨.pvcUsedBytes,
              ⟨pvc.Name, pvc.Namespace, config.StorageClass, pvc.VolumeName⟩, float64 used⟩],
            [e]) := by
    simp [joinStep, hclass, hkey, hparse, labelsOf]
  refine ⟨hstep, float64_exact bytes, float64_exact used, ?_⟩
  rw [joinLoop_append config ParseBytes sizeMap (pvc :: post) pre
      (joinLoop_outcome config ParseBytes sizeMap pre hpre),
    joinLoop_cons_some config ParseBytes sizeMap pvc post _ _ hstep]
  simp

/-- C4, witness: pvc2, whose quantity string does not convert, between two
occurrences of pvc1. -/
theorem joinStep_conversion_error_still_writes_witness :
    (∀ p ∈ [pvc1], p.StorageClassName ≠ none) ∧
      (joinLoop exampleConfig exampleParseBytes (tickSizeMap (exampleInput []))
          ([pvc1] ++ pvcBadQuantity :: [pvc1])).writes =
        [⟨.pvcRequestedBytes, labels1, 2147483648⟩, ⟨.pvcUsedBytes, labels1, 1000000⟩,
         ⟨.pvcRequestedBytes, labels2, 0⟩, ⟨.pvcUsedBytes, labels2, 500⟩,
         ⟨.pvcRequestedBytes, labels1, 2147483648⟩, ⟨.pvcUsedBytes, labels1, 1000000⟩] :=
  ⟨by decide,
    ((joinStep_conversion_error_still_writes exampleConfig exampleParseBytes
      (tickSizeMap (exampleInput [])) pvcBadQuantity 500 0 "unhandled size name: e3"
      [pvc1] [pvc1] (by decide) (by decide) (by decide) (by decide)).2.2.2).trans (by decide)⟩

/-! ## Lemmas: the writes of a tick come in pairs -/

theorem joinStep_paired (config : Config) (ParseBytes : String → Nat × Option Err)
    (sizeMap : SizeMap) (pvc : PVC) (ws : List GaugeWrite) (ls : List Err)
    (h : joinStep config ParseBytes sizeMap pvc = some (ws, ls)) :
    ∀ w ∈ ws, ∀ f, ∃ w' ∈ ws, w'.family = f ∧ w'.labels = w.labels := by
  intro w hw f
  have hl := fun x hx => (joinStep_writes config ParseBytes sizeMap pvc ws ls h x hx).2.2
  have hc := (joinStep_writes config ParseBytes sizeMap pvc ws ls h w hw).1
  have hk := (joinStep_writes config ParseBytes sizeMap pvc ws ls h w hw).2.1
  obtain ⟨used, hused⟩ := Option.isSome_iff_exists.mp hk
  have hws : ∃ a b, ws = [⟨.pvcRequestedBytes, labelsOf pvc config.StorageClass, a⟩,
      ⟨.pvcUsedBytes, labelsOf pvc config.StorageClass, b⟩] := by
    simp only [joinStep, hc, hused, ne_eq, not_true_eq_false, if_false] at h
    simp only [Option.some.injEq, Prod.mk.injEq] at h
    exact ⟨_, _, h.1.symm⟩
  obtain ⟨a, b, rfl⟩ := hws
  have hwl : w.labels = labelsOf pvc config.StorageClass := by
    rw [hl w hw]
    rfl
  cases f with
  | pvcRequestedBytes => exact ⟨_, List.mem_cons_self _ _, rfl, hwl.symm⟩
  | pvcUsedBytes =>
      exact ⟨_, List.mem_cons_of_mem _ (List.mem_cons_self _ _), rfl, hwl.symm⟩

theorem joinLoop_paired (config : Config) (ParseBytes : String → Nat × Option Err)
    (sizeMap : SizeMap) :
    ∀ (pvcs : List PVC), ∀ w ∈ (joinLoop config ParseBytes sizeMap pvcs).writes, ∀ f,
      ∃ w' ∈ (joinLoop config ParseBytes sizeMap pvcs).writes,
        w'.family = f ∧ w'.labels = w.labels
  | [], w, h, _ => by simp [joinLoop] at h
  | p :: rest, w, h, f => by
      cases hs : joinStep config ParseBytes sizeMap p with
      | none =>
          rw [joinLoop_cons_none config ParseBytes sizeMap p rest hs] at h
          simp at h
      | some r =>
          obtain ⟨ws, ls⟩ := r
          rw [joinLoop_cons_some config ParseBytes sizeMap p rest ws ls hs] at h ⊢
          simp only [List.mem_append] at h
          rcases h with h | h
          · obtain ⟨w', hw', hf⟩ := joinStep_paired config ParseBytes sizeMap p ws ls hs w h f
            exact ⟨w', List.mem_append_left _ hw', hf⟩
          · obtain ⟨w', hw', hf⟩ := joinLoop_paired config ParseBytes sizeMap rest w h f
            exact ⟨w', List.mem_append_right _ hw', hf⟩

/-- C9. With the sink as a map from label set to (requested, used): after one
tick every label set the tick writes no gauge for keeps exactly the pair it
had before the tick, and every label set the tick writes holds in both gauges
a value written by this tick (the last one written for it), whatever the sink
held before: the value is replaced, not accumulated. -/
theorem sinkAfterTick_frame_and_overwrite (config : Config)
    (ParseBytes : String → Nat × Option Err) (inp : TickInput) (sink : Metrics) (l : Labels) :
    ((∀ w ∈ (RecordMetricsTick config ParseBytes inp).writes, w.labels ≠ l) →
        (sinkAfterTick config ParseBytes inp sink).view l = sink.view l) ∧
      ((∃ w ∈ (RecordMetricsTick config ParseBytes inp).writes, w.labels = l) →
        ∃ req used,
          lastWrite (RecordMetricsTick config ParseBytes inp).writes .pvcRequestedBytes l =
              some req ∧
            lastWrite (RecordMetricsTick config ParseBytes inp).writes .pvcUsedBytes l =
              some used ∧
            ⟨.pvcRequestedBytes, l, req⟩ ∈ (RecordMetricsTick config ParseBytes inp).writes ∧
            ⟨.pvcUsedBytes, l, used⟩ ∈ (RecordMetricsTick config ParseBytes inp).writes ∧
            ∀ prior : Metrics,
              (sinkAfterTick config ParseBytes inp prior).view l = (some req, some used)) := by
  have hview : ∀ (m : Metrics), (sinkAfterTick config ParseBytes inp m).view l =
      ((m.writeAll (RecordMetricsTick config ParseBytes inp).writes).vec .pvcRequestedBytes l,
        (m.writeAll (RecordMetricsTick config ParseBytes inp).writes).vec .pvcUsedBytes l) :=
    fun _ => rfl
  refine ⟨?_, ?_⟩
  · intro hno
    rw [hview, writeAll_vec, writeAll_vec, lastWrite_eq_none _ _ _ hno,
      lastWrite_eq_none _ _ _ hno]
    rfl
  · rintro ⟨w, hw, hwl⟩
    rw [RecordMetricsTick_writes] at hw
    obtain ⟨w1, hw1, hf1, hl1⟩ :=
      joinLoop_paired config ParseBytes (tickSizeMap inp) inp.pvcItems w hw .pvcRequestedBytes
    obtain ⟨w2, hw2, hf2, hl2⟩ :=
      joinLoop_paired config ParseBytes (tickSizeMap inp) inp.pvcItems w hw .pvcUsedBytes
    rw [← RecordMetricsTick_writes] at hw1 hw2
    obtain ⟨a, ha, haf, hal, hav⟩ := lastWrite_isSome _ .pvcRequestedBytes l
      ⟨w1, hw1, hf1, hl1.trans hwl⟩
    obtain ⟨b, hb, hbf, hbl, hbv⟩ := lastWrite_isSome _ .pvcUsedBytes l
      ⟨w2, hw2, hf2, hl2.trans hwl⟩
    refine ⟨a.value, b.value, hav, hbv, ?_, ?_, ?_⟩
    · obtain ⟨af, al, av⟩ := a
      simp only at haf hal
      subst haf
      subst hal
      exact ha
    · obtain ⟨bf, bl, bv⟩ := b
      simp only at hbf hbl
      subst hbf
      subst hbl
      exact hb
    · intro prior
      rw [hview, writeAll_vec, writeAll_vec, hav, hbv]

/-- C9, witness: a sink left by earlier ticks holds pvc1 and a claim that is
gone since; after the tick the gone claim keeps its pair and pvc1 holds the
pair of this tick. -/
theorem sinkAfterTick_frame_and_overwrite_witness :
    staleSink.view ⟨"old", "ns1", "local-path", "vol8"⟩ = (some 1073741824, some 5) ∧
      (sinkAfterTick exampleConfig exampleParseBytes (exampleInput [pvc1]) staleSink).view
          ⟨"old", "ns1", "local-path", "vol8"⟩ =
        staleSink.view ⟨"old", "ns1", "local-path", "vol8"⟩ ∧
      staleSink.view labels1 = (some 1073741824, some 777) ∧
      (sinkAfterTick exampleConfig exampleParseBytes (exampleInput [pvc1]) staleSink).view
          labels1 = (some 2147483648, some 1000000) :=
  ⟨by decide,
    (sinkAfterTick_frame_and_overwrite exampleConfig exampleParseBytes (exampleInput [pvc1])
      staleSink ⟨"old", "ns1", "local-path", "vol8"⟩).1 (by decide),
    by decide, by decide⟩

end LocalPathExporter
